import Mathlib

/-!
Verification development for the Brisa SMTP middleware gateway.

The definitions below are a shallow embedding of the Go sources:
`middleware.go` (Action flags, Middleware, MiddlewareChain.Execute,
MiddlewareChains.Register), `brisa.go` (Router, Router.Use, Router.Clone,
Brisa.UpdateRouter, Session.Data, Session.execute) and `errors.go`
(the canonical SMTP error values).

Modelling conventions:
* Go's `Action` is an `int` used as a bit-flag set; all defined flags are
  small positive bit values, so it is embedded as `Nat` and the skip test
  `IgnoreFlags & Status != 0` becomes `Nat.land`.
* A handler `func(ctx *Context) Action` may mutate the context and either
  return an action normally or terminate abnormally (Go `panic`).  This is
  embedded as `Context → HandlerResult` where `HandlerResult.ok` carries the
  mutated context plus the returned action and `HandlerResult.fault` carries
  the panic payload rendered as a string.  Partial writes performed by a
  handler before it faults are not modelled; the executor itself never
  touches the context in its recovery path, which is the behaviour the
  claims are about.
* Go's `recover`-based fault barrier is embedded by making `Execute` total:
  a fault becomes an ordinary `(Reject, some error)` result, which is
  exactly the observable contract of the recovered Go function.
* Go errors are embedded as `GoError`: either a structured `*smtp.SMTPError`
  or a generic error carrying a message, which is what `errors.As` in
  `Session.execute` distinguishes.
-/

namespace Brisa

/-- Go `Action` — an int used as a set of bit flags (`middleware.go`). -/
abbrev Action := Nat

/-- `Pass Action = 1 << iota` — continue to the next middleware. -/
def Pass : Action := 1

/-- `Reject` — reject the email and stop processing. -/
def Reject : Action := 2

/-- `Deliver` — mark the email for delivery. -/
def Deliver : Action := 4

/-- `Quarantine` — mark the email for quarantine. -/
def Quarantine : Action := 8

/-- Modelled from the spec: the `Discard` disposition value is referenced by
`Session.Data` and `ChainDiscard` in `brisa.go` but its constant declaration
is missing from the `middleware.go` snapshot; per the spec it is one of the
single-bit disposition markers, so it is the next bit flag after
`Quarantine`. -/
def Discard : Action := 16

/-- `IgnoreDeliver` — skip the middleware if the context status is Deliver. -/
def IgnoreDeliver : Action := Deliver

/-- `IgnoreQuarantine` — skip the middleware if the context status is Quarantine. -/
def IgnoreQuarantine : Action := Quarantine

/-- `DefaultIgnoreFlags = IgnoreDeliver | IgnoreQuarantine`. -/
def DefaultIgnoreFlags : Action := IgnoreDeliver ||| IgnoreQuarantine

/-- The session context (`context.go`): the cumulative status plus the
string-keyed value store middleware use to pass data.  The remaining Go
fields (addresses, logger, reader, session back-pointer) play no role in the
claims and are omitted. -/
structure Context where
  Status : Action
  keys : List (String × Nat)
deriving DecidableEq, Repr

/-- Outcome of invoking one handler: a normal return (possibly mutated
context plus returned action) or an abnormal termination (Go panic), whose
payload is rendered to a string as `fmt.Errorf("...: %v", r)` does. -/
inductive HandlerResult where
  | ok (ctx : Context) (act : Action)
  | fault (msg : String)
deriving DecidableEq, Repr

/-- `Handler func(ctx *Context) Action` (`middleware.go`). -/
abbrev Handler := Context → HandlerResult

/-- `Middleware` — handler plus its skip mask (`middleware.go`). -/
structure Middleware where
  Handler : Handler
  IgnoreFlags : Action

/-- `MiddlewareChain []Middleware`. -/
abbrev MiddlewareChain := List Middleware

/-- `smtp.SMTPError` — code, enhanced code triple, message. -/
structure SMTPError where
  Code : Nat
  EnhancedCode : Nat × Nat × Nat
  Message : String
deriving DecidableEq, Repr

/-- A Go `error` value as observed by `Session.execute`: either it carries a
structured `*smtp.SMTPError` (the `errors.As` test succeeds) or it is a
generic error with only a message (e.g. the panic-recovery error built by
`MiddlewareChain.Execute`). -/
inductive GoError where
  | smtp (e : SMTPError)
  | generic (msg : String)
deriving DecidableEq, Repr

/-- The message built by the recovery branch of `MiddlewareChain.Execute`:
`fmt.Errorf("panic recovered during middleware execution: %v", r)`. -/
def panicMsg (msg : String) : String :=
  "panic recovered during middleware execution: " ++ msg

/-- `MiddlewareChain.Execute` (`middleware.go` lines 156-177).  Iterates the
units in order; a unit whose `IgnoreFlags` overlap the context status is
skipped; otherwise `ctx.Status = m.Handler(ctx)` and a `Reject` status
returns immediately with a nil error.  A handler fault is recovered by the
deferred `recover`, producing `(Reject, non-nil error)`; the totality of
this Lean function is the embedding of "the panic never propagates to the
caller".  Returns the final context, the returned action and the error. -/
def MiddlewareChain.Execute : MiddlewareChain → Context → Context × Action × Option GoError
  | [], ctx => (ctx, ctx.Status, none)
  | m :: rest, ctx =>
    if m.IgnoreFlags &&& ctx.Status ≠ 0 then
      MiddlewareChain.Execute rest ctx
    else
      match m.Handler ctx with
      | .fault msg => (ctx, Reject, some (.generic (panicMsg msg)))
      | .ok c a =>
        let c1 : Context := { c with Status := a }
        if c1.Status = Reject then (c1, c1.Status, none)
        else MiddlewareChain.Execute rest c1

/-- What happened at one unit during a chain run: skipped, ran normally
(with the context as left after `ctx.Status = m.Handler(ctx)`), returned
`Reject` (stopping the chain), or faulted. -/
inductive StepKind where
  | skip
  | run (post : Context)
  | stop (post : Context)
  | fault (msg : String)
deriving DecidableEq, Repr

/-- One entry of the execution log: the context at the skip evaluation of
the unit, and what the unit did. -/
structure Step where
  pre : Context
  kind : StepKind
deriving DecidableEq, Repr

/-- Context after a step: unchanged for a skip (and for a fault, where the
executor's recovery path does not touch it), the updated context otherwise. -/
def Step.post (s : Step) : Context :=
  match s.kind with
  | .skip => s.pre
  | .run c => c
  | .stop c => c
  | .fault _ => s.pre

/-- Instrumented executor: the same recursion as `MiddlewareChain.Execute`,
additionally recording one `Step` per unit evaluated.  The `i`-th step of
the log corresponds to the `i`-th unit of the chain; units after an early
exit (handler `Reject` or fault) produce no step at all, matching the
aborted Go loop. -/
def execLog : MiddlewareChain → Context → List Step × (Context × Action × Option GoError)
  | [], ctx => ([], (ctx, ctx.Status, none))
  | m :: rest, ctx =>
    if m.IgnoreFlags &&& ctx.Status ≠ 0 then
      let r := execLog rest ctx
      (⟨ctx, .skip⟩ :: r.1, r.2)
    else
      match m.Handler ctx with
      | .fault msg =>
        ([⟨ctx, .fault msg⟩], (ctx, Reject, some (.generic (panicMsg msg))))
      | .ok c a =>
        let c1 : Context := { c with Status := a }
        if c1.Status = Reject then ([⟨ctx, .stop c1⟩], (c1, c1.Status, none))
        else
          let r := execLog rest c1
          (⟨ctx, .run c1⟩ :: r.1, r.2)

/-- The instrumented executor computes the same result as `Execute`. -/
theorem execLog_snd (mc : MiddlewareChain) (ctx : Context) :
    (execLog mc ctx).2 = MiddlewareChain.Execute mc ctx := by
  induction mc generalizing ctx with
  | nil => rfl
  | cons m rest ih =>
    simp only [execLog, MiddlewareChain.Execute]
    by_cases hskip : m.IgnoreFlags &&& ctx.Status ≠ 0
    · simp [hskip, ih]
    · simp only [hskip, if_false]
      match hh : m.Handler ctx with
      | .fault msg => simp
      | .ok c a =>
        by_cases hrej : a = Reject
        · simp [hrej]
        · simp [hrej, ih]

/-- The log never has more steps than the chain has units. -/
theorem execLog_length_le (mc : MiddlewareChain) (ctx : Context) :
    (execLog mc ctx).1.length ≤ mc.length := by
  induction mc generalizing ctx with
  | nil => simp [execLog]
  | cons m rest ih =>
    simp only [execLog]
    by_cases hskip : m.IgnoreFlags &&& ctx.Status ≠ 0
    · simpa [hskip] using Nat.succ_le_succ (ih ctx)
    · simp only [hskip, if_false]
      match hh : m.Handler ctx with
      | .fault msg => simp
      | .ok c a =>
        by_cases hrej : a = Reject
        · simp [hrej]
        · simpa [hrej] using Nat.succ_le_succ (ih _)

/-- Unfolding: the head unit is skipped. -/
theorem execLog_cons_skip (m : Middleware) (rest : MiddlewareChain) (ctx : Context)
    (hskip : m.IgnoreFlags &&& ctx.Status ≠ 0) :
    execLog (m :: rest) ctx =
      (⟨ctx, .skip⟩ :: (execLog rest ctx).1, (execLog rest ctx).2) := by
  simp [execLog, hskip]

/-- Unfolding: the head unit runs and its handler faults. -/
theorem execLog_cons_fault (m : Middleware) (rest : MiddlewareChain) (ctx : Context)
    (msg : String) (hskip : ¬ m.IgnoreFlags &&& ctx.Status ≠ 0)
    (hh : m.Handler ctx = .fault msg) :
    execLog (m :: rest) ctx =
      ([⟨ctx, .fault msg⟩], (ctx, Reject, some (.generic (panicMsg msg)))) := by
  simp [execLog, hskip, hh]

/-- Unfolding: the head unit runs and its handler returns `Reject`. -/
theorem execLog_cons_stop (m : Middleware) (rest : MiddlewareChain) (ctx : Context)
    (c : Context) (hskip : ¬ m.IgnoreFlags &&& ctx.Status ≠ 0)
    (hh : m.Handler ctx = .ok c Reject) :
    execLog (m :: rest) ctx =
      ([⟨ctx, .stop { c with Status := Reject }⟩],
        ({ c with Status := Reject }, Reject, none)) := by
  simp [execLog, hskip, hh]

/-- Unfolding: the head unit runs and its handler returns a non-`Reject`
action, so iteration continues on the updated context. -/
theorem execLog_cons_run (m : Middleware) (rest : MiddlewareChain) (ctx : Context)
    (c : Context) (a : Action) (hskip : ¬ m.IgnoreFlags &&& ctx.Status ≠ 0)
    (hh : m.Handler ctx = .ok c a) (hrej : a ≠ Reject) :
    execLog (m :: rest) ctx =
      (⟨ctx, .run { c with Status := a }⟩ :: (execLog rest { c with Status := a }).1,
        (execLog rest { c with Status := a }).2) := by
  simp [execLog, hskip, hh, hrej]

/-- A nonempty chain always logs at least one step (its first unit is always
at least skip-evaluated). -/
theorem execLog_ne_nil (m : Middleware) (rest : MiddlewareChain) (ctx : Context) :
    (execLog (m :: rest) ctx).1 ≠ [] := by
  by_cases hskip : m.IgnoreFlags &&& ctx.Status ≠ 0
  · rw [execLog_cons_skip m rest ctx hskip]; simp
  · cases hh : m.Handler ctx with
    | fault msg => rw [execLog_cons_fault m rest ctx msg hskip hh]; simp
    | ok c a =>
      by_cases hrej : a = Reject
      · subst hrej; rw [execLog_cons_stop m rest ctx c hskip hh]; simp
      · rw [execLog_cons_run m rest ctx c a hskip hh hrej]; simp

/-- The first logged step is evaluated at the initial context. -/
theorem execLog_first_pre (mc : MiddlewareChain) (ctx : Context)
    (h : 0 < (execLog mc ctx).1.length) :
    ((execLog mc ctx).1.get ⟨0, h⟩).pre = ctx := by
  cases mc with
  | nil => simp [execLog] at h
  | cons m rest =>
    by_cases hskip : m.IgnoreFlags &&& ctx.Status ≠ 0
    · simp [execLog_cons_skip m rest ctx hskip]
    · cases hh : m.Handler ctx with
      | fault msg => simp [execLog_cons_fault m rest ctx msg hskip hh]
      | ok c a =>
        by_cases hrej : a = Reject
        · subst hrej; simp [execLog_cons_stop m rest ctx c hskip hh]
        · simp [execLog_cons_run m rest ctx c a hskip hh hrej]

/-- A step is a skip exactly when the corresponding unit\'s `IgnoreFlags`
bitwise-AND the status at that step\'s evaluation is non-zero
(`middleware.go` line 167). -/
theorem execLog_skip_iff (mc : MiddlewareChain) (ctx : Context) :
    ∀ i (hi : i < (execLog mc ctx).1.length) (hm : i < mc.length),
      ((execLog mc ctx).1.get ⟨i, hi⟩).kind = .skip ↔
        (mc.get ⟨i, hm⟩).IgnoreFlags &&&
          ((execLog mc ctx).1.get ⟨i, hi⟩).pre.Status ≠ 0 := by
  induction mc generalizing ctx with
  | nil => intro i hi _; simp [execLog] at hi
  | cons m rest ih =>
    intro i hi hm
    by_cases hskip : m.IgnoreFlags &&& ctx.Status ≠ 0
    · cases i with
      | zero => simp [execLog_cons_skip m rest ctx hskip, hskip]
      | succ k =>
        have hi' : k < (execLog rest ctx).1.length := by
          have h2 := hi; rw [execLog_cons_skip m rest ctx hskip] at h2
          simpa using h2
        have hm' : k < rest.length := by simpa using Nat.lt_of_succ_lt_succ hm
        have hres := ih ctx k hi' hm'
        simpa [execLog_cons_skip m rest ctx hskip] using hres
    · cases hh : m.Handler ctx with
      | fault msg =>
        cases i with
        | zero => simp [execLog_cons_fault m rest ctx msg hskip hh, hskip]
        | succ k =>
          exfalso
          have h2 := hi; rw [execLog_cons_fault m rest ctx msg hskip hh] at h2
          simp at h2
      | ok c a =>
        by_cases hrej : a = Reject
        · subst hrej
          cases i with
          | zero => simp [execLog_cons_stop m rest ctx c hskip hh, hskip]
          | succ k =>
            exfalso
            have h2 := hi; rw [execLog_cons_stop m rest ctx c hskip hh] at h2
            simp at h2
        · cases i with
          | zero => simp [execLog_cons_run m rest ctx c a hskip hh hrej, hskip]
          | succ k =>
            have hi' : k < (execLog rest { c with Status := a }).1.length := by
              have h2 := hi; rw [execLog_cons_run m rest ctx c a hskip hh hrej] at h2
              simpa using h2
            have hm' : k < rest.length := by simpa using Nat.lt_of_succ_lt_succ hm
            have hres := ih { c with Status := a } k hi' hm'
            simpa [execLog_cons_run m rest ctx c a hskip hh hrej] using hres

/-- Consecutive steps are chained: the next step is evaluated at the
post-context of the previous one. -/
theorem execLog_pre_succ (mc : MiddlewareChain) (ctx : Context) :
    ∀ i (h2 : i + 1 < (execLog mc ctx).1.length),
      ((execLog mc ctx).1.get ⟨i + 1, h2⟩).pre =
        ((execLog mc ctx).1.get ⟨i, Nat.lt_of_succ_lt h2⟩).post := by
  induction mc generalizing ctx with
  | nil => intro i h2; simp [execLog] at h2
  | cons m rest ih =>
    intro i h2
    by_cases hskip : m.IgnoreFlags &&& ctx.Status ≠ 0
    · cases i with
      | zero =>
        have hlen : 0 < (execLog rest ctx).1.length := by
          have := h2; rw [execLog_cons_skip m rest ctx hskip] at this
          simpa using this
        have hfirst := execLog_first_pre rest ctx hlen
        simp only [List.get_eq_getElem] at hfirst
        simp [execLog_cons_skip m rest ctx hskip, Step.post, hfirst]
      | succ k =>
        have h2' : k + 1 < (execLog rest ctx).1.length := by
          have := h2; rw [execLog_cons_skip m rest ctx hskip] at this
          simpa using this
        have hres := ih ctx k h2'
        simpa [execLog_cons_skip m rest ctx hskip] using hres
    · cases hh : m.Handler ctx with
      | fault msg =>
        exfalso
        have := h2; rw [execLog_cons_fault m rest ctx msg hskip hh] at this
        simp at this
      | ok c a =>
        by_cases hrej : a = Reject
        · exfalso
          subst hrej
          have := h2; rw [execLog_cons_stop m rest ctx c hskip hh] at this
          simp at this
        · cases i with
          | zero =>
            have hlen : 0 < (execLog rest { c with Status := a }).1.length := by
              have := h2; rw [execLog_cons_run m rest ctx c a hskip hh hrej] at this
              simpa using this
            have hfirst := execLog_first_pre rest { c with Status := a } hlen
            simp only [List.get_eq_getElem] at hfirst
            simp [execLog_cons_run m rest ctx c a hskip hh hrej, Step.post, hfirst]
          | succ k =>
            have h2' : k + 1 < (execLog rest { c with Status := a }).1.length := by
              have := h2; rw [execLog_cons_run m rest ctx c a hskip hh hrej] at this
              simpa using this
            have hres := ih { c with Status := a } k h2'
            simpa [execLog_cons_run m rest ctx c a hskip hh hrej] using hres

/-- A fault step ends the run: it is the last step of the log (no later
unit is even skip-evaluated) and the overall result is the pre-fault
context, `Reject`, and the panic-recovery error. -/
theorem execLog_fault_last (mc : MiddlewareChain) (ctx : Context) :
    ∀ i (hi : i < (execLog mc ctx).1.length) (msg : String),
      ((execLog mc ctx).1.get ⟨i, hi⟩).kind = .fault msg →
        (execLog mc ctx).1.length = i + 1 ∧
        (execLog mc ctx).2 =
          (((execLog mc ctx).1.get ⟨i, hi⟩).pre, Reject,
            some (.generic (panicMsg msg))) := by
  induction mc generalizing ctx with
  | nil => intro i hi _ _; simp [execLog] at hi
  | cons m rest ih =>
    intro i hi msg hk
    by_cases hskip : m.IgnoreFlags &&& ctx.Status ≠ 0
    · cases i with
      | zero =>
        exfalso
        have := hk
        simp [execLog_cons_skip m rest ctx hskip] at this
      | succ k =>
        have hi' : k < (execLog rest ctx).1.length := by
          have h2 := hi; rw [execLog_cons_skip m rest ctx hskip] at h2
          simpa using h2
        have hk' : ((execLog rest ctx).1.get ⟨k, hi'⟩).kind = .fault msg := by
          have := hk
          simpa [execLog_cons_skip m rest ctx hskip] using this
        have hres := ih ctx k hi' msg hk'
        constructor
        · rw [execLog_cons_skip m rest ctx hskip]; simp [hres.1]
        · have := hres.2
          simpa [execLog_cons_skip m rest ctx hskip] using this
    · cases hh : m.Handler ctx with
      | fault msg2 =>
        cases i with
        | zero =>
          have hmsg : msg2 = msg := by
            have := hk
            simp [execLog_cons_fault m rest ctx msg2 hskip hh] at this
            exact this
          subst hmsg
          constructor
          · rw [execLog_cons_fault m rest ctx msg2 hskip hh]; simp
          · simp [execLog_cons_fault m rest ctx msg2 hskip hh]
        | succ k =>
          exfalso
          have h2 := hi; rw [execLog_cons_fault m rest ctx msg2 hskip hh] at h2
          simp at h2
      | ok c a =>
        by_cases hrej : a = Reject
        · exfalso
          subst hrej
          cases i with
          | zero =>
            have := hk
            simp [execLog_cons_stop m rest ctx c hskip hh] at this
          | succ k =>
            have h2 := hi; rw [execLog_cons_stop m rest ctx c hskip hh] at h2
            simp at h2
        · cases i with
          | zero =>
            exfalso
            have := hk
            simp [execLog_cons_run m rest ctx c a hskip hh hrej] at this
          | succ k =>
            have hi' : k < (execLog rest { c with Status := a }).1.length := by
              have h2 := hi; rw [execLog_cons_run m rest ctx c a hskip hh hrej] at h2
              simpa using h2
            have hk' : ((execLog rest { c with Status := a }).1.get ⟨k, hi'⟩).kind
                = .fault msg := by
              have := hk
              simpa [execLog_cons_run m rest ctx c a hskip hh hrej] using this
            have hres := ih { c with Status := a } k hi' msg hk'
            constructor
            · rw [execLog_cons_run m rest ctx c a hskip hh hrej]; simp [hres.1]
            · have := hres.2
              simpa [execLog_cons_run m rest ctx c a hskip hh hrej] using this

/-- A step whose handler returned `Reject` ends the run: it is the last
step of the log and the overall result is the post-context, a `Reject`
action and a nil error. -/
theorem execLog_stop_last (mc : MiddlewareChain) (ctx : Context) :
    ∀ i (hi : i < (execLog mc ctx).1.length) (c' : Context),
      ((execLog mc ctx).1.get ⟨i, hi⟩).kind = .stop c' →
        (execLog mc ctx).1.length = i + 1 ∧
        (execLog mc ctx).2 = (c', Reject, none) ∧ c'.Status = Reject := by
  induction mc generalizing ctx with
  | nil => intro i hi _ _; simp [execLog] at hi
  | cons m rest ih =>
    intro i hi c' hk
    by_cases hskip : m.IgnoreFlags &&& ctx.Status ≠ 0
    · cases i with
      | zero =>
        exfalso
        have := hk
        simp [execLog_cons_skip m rest ctx hskip] at this
      | succ k =>
        have hi' : k < (execLog rest ctx).1.length := by
          have h2 := hi; rw [execLog_cons_skip m rest ctx hskip] at h2
          simpa using h2
        have hk' : ((execLog rest ctx).1.get ⟨k, hi'⟩).kind = .stop c' := by
          have := hk
          simpa [execLog_cons_skip m rest ctx hskip] using this
        have hres := ih ctx k hi' c' hk'
        refine ⟨?_, ?_, hres.2.2⟩
        · rw [execLog_cons_skip m rest ctx hskip]; simp [hres.1]
        · have := hres.2.1
          simpa [execLog_cons_skip m rest ctx hskip] using this
    · cases hh : m.Handler ctx with
      | fault msg2 =>
        cases i with
        | zero =>
          exfalso
          have := hk
          simp [execLog_cons_fault m rest ctx msg2 hskip hh] at this
        | succ k =>
          exfalso
          have h2 := hi; rw [execLog_cons_fault m rest ctx msg2 hskip hh] at h2
          simp at h2
      | ok c a =>
        by_cases hrej : a = Reject
        · subst hrej
          cases i with
          | zero =>
            have hc : ({ c with Status := Reject } : Context) = c' := by
              have := hk
              simp [execLog_cons_stop m rest ctx c hskip hh] at this
              exact this
            refine ⟨?_, ?_, ?_⟩
            · rw [execLog_cons_stop m rest ctx c hskip hh]; simp
            · rw [execLog_cons_stop m rest ctx c hskip hh]; simp [hc]
            · rw [← hc]
          | succ k =>
            exfalso
            have h2 := hi; rw [execLog_cons_stop m rest ctx c hskip hh] at h2
            simp at h2
        · cases i with
          | zero =>
            exfalso
            have := hk
            simp [execLog_cons_run m rest ctx c a hskip hh hrej] at this
          | succ k =>
            have hi' : k < (execLog rest { c with Status := a }).1.length := by
              have h2 := hi; rw [execLog_cons_run m rest ctx c a hskip hh hrej] at h2
              simpa using h2
            have hk' : ((execLog rest { c with Status := a }).1.get ⟨k, hi'⟩).kind
                = .stop c' := by
              have := hk
              simpa [execLog_cons_run m rest ctx c a hskip hh hrej] using this
            have hres := ih { c with Status := a } k hi' c' hk'
            refine ⟨?_, ?_, hres.2.2⟩
            · rw [execLog_cons_run m rest ctx c a hskip hh hrej]; simp [hres.1]
            · have := hres.2.1
              simpa [execLog_cons_run m rest ctx c a hskip hh hrej] using this

/-- After a skip the loop moves on: a skipped unit is followed by a step
for the next unit exactly when the chain has a next unit. -/
theorem execLog_skip_next (mc : MiddlewareChain) (ctx : Context) :
    ∀ i (hi : i < (execLog mc ctx).1.length),
      ((execLog mc ctx).1.get ⟨i, hi⟩).kind = .skip →
        (i + 1 < (execLog mc ctx).1.length ↔ i + 1 < mc.length) := by
  induction mc generalizing ctx with
  | nil => intro i hi _; simp [execLog] at hi
  | cons m rest ih =>
    intro i hi hk
    by_cases hskip : m.IgnoreFlags &&& ctx.Status ≠ 0
    · cases i with
      | zero =>
        rw [execLog_cons_skip m rest ctx hskip]
        simp only [List.length_cons, Nat.add_lt_add_iff_right, List.length_cons]
        constructor
        · intro h; exact lt_of_lt_of_le h (execLog_length_le rest ctx)
        · intro h
          rcases rest with _ | ⟨m2, rest2⟩
          · simp at h
          · exact List.length_pos.mpr (execLog_ne_nil m2 rest2 ctx)
      | succ k =>
        have hi' : k < (execLog rest ctx).1.length := by
          have h2 := hi; rw [execLog_cons_skip m rest ctx hskip] at h2
          simpa using h2
        have hk' : ((execLog rest ctx).1.get ⟨k, hi'⟩).kind = .skip := by
          have := hk
          simpa [execLog_cons_skip m rest ctx hskip] using this
        have hres := ih ctx k hi' hk'
        rw [execLog_cons_skip m rest ctx hskip]
        simpa using hres
    · cases hh : m.Handler ctx with
      | fault msg =>
        cases i with
        | zero =>
          exfalso
          have := hk
          simp [execLog_cons_fault m rest ctx msg hskip hh] at this
        | succ k =>
          exfalso
          have h2 := hi; rw [execLog_cons_fault m rest ctx msg hskip hh] at h2
          simp at h2
      | ok c a =>
        by_cases hrej : a = Reject
        · subst hrej
          cases i with
          | zero =>
            exfalso
            have := hk
            simp [execLog_cons_stop m rest ctx c hskip hh] at this
          | succ k =>
            exfalso
            have h2 := hi; rw [execLog_cons_stop m rest ctx c hskip hh] at h2
            simp at h2
        · cases i with
          | zero =>
            exfalso
            have := hk
            simp [execLog_cons_run m rest ctx c a hskip hh hrej] at this
          | succ k =>
            have hi' : k < (execLog rest { c with Status := a }).1.length := by
              have h2 := hi; rw [execLog_cons_run m rest ctx c a hskip hh hrej] at h2
              simpa using h2
            have hk' : ((execLog rest { c with Status := a }).1.get ⟨k, hi'⟩).kind
                = .skip := by
              have := hk
              simpa [execLog_cons_run m rest ctx c a hskip hh hrej] using this
            have hres := ih { c with Status := a } k hi' hk'
            rw [execLog_cons_run m rest ctx c a hskip hh hrej]
            simpa using hres

/-- A skip at the last logged step means the chain ran out of units there,
and the result is the skipped step's context with its status unchanged and
a nil error. -/
theorem execLog_skip_last (mc : MiddlewareChain) (ctx : Context) :
    ∀ i (hi : i < (execLog mc ctx).1.length),
      ((execLog mc ctx).1.get ⟨i, hi⟩).kind = .skip →
        i + 1 = (execLog mc ctx).1.length →
        (execLog mc ctx).2 =
          (((execLog mc ctx).1.get ⟨i, hi⟩).pre,
            ((execLog mc ctx).1.get ⟨i, hi⟩).pre.Status, none) := by
  induction mc generalizing ctx with
  | nil => intro i hi _ _; simp [execLog] at hi
  | cons m rest ih =>
    intro i hi hk hlast
    by_cases hskip : m.IgnoreFlags &&& ctx.Status ≠ 0
    · cases i with
      | zero =>
        have hlen0 : (execLog rest ctx).1.length = 0 := by
          have h3 := hlast
          rw [execLog_cons_skip m rest ctx hskip] at h3
          simp only [List.length_cons] at h3
          omega
        have hrestnil : (execLog rest ctx).1 = [] := List.length_eq_zero.mp hlen0
        have hrest : rest = [] := by
          rcases hr : rest with _ | ⟨m2, rest2⟩
          · rfl
          · exfalso
            exact execLog_ne_nil m2 rest2 ctx (by rw [← hr]; exact hrestnil)
        subst hrest
        simp [execLog, hskip]
      | succ k =>
        have hi' : k < (execLog rest ctx).1.length := by
          have h2 := hi; rw [execLog_cons_skip m rest ctx hskip] at h2
          simpa using h2
        have hk' : ((execLog rest ctx).1.get ⟨k, hi'⟩).kind = .skip := by
          have := hk
          simpa [execLog_cons_skip m rest ctx hskip] using this
        have hlast' : k + 1 = (execLog rest ctx).1.length := by
          have := hlast; rw [execLog_cons_skip m rest ctx hskip] at this
          simpa using this
        have hres := ih ctx k hi' hk' hlast'
        have hpre : ((execLog (m :: rest) ctx).1.get ⟨k + 1, hi⟩)
            = ((execLog rest ctx).1.get ⟨k, hi'⟩) := by
          simp [execLog_cons_skip m rest ctx hskip]
        rw [hpre]
        rw [execLog_cons_skip m rest ctx hskip]
        simpa using hres
    · cases hh : m.Handler ctx with
      | fault msg =>
        cases i with
        | zero =>
          exfalso
          have := hk
          simp [execLog_cons_fault m rest ctx msg hskip hh] at this
        | succ k =>
          exfalso
          have h2 := hi; rw [execLog_cons_fault m rest ctx msg hskip hh] at h2
          simp at h2
      | ok c a =>
        by_cases hrej : a = Reject
        · subst hrej
          cases i with
          | zero =>
            exfalso
            have := hk
            simp [execLog_cons_stop m rest ctx c hskip hh] at this
          | succ k =>
            exfalso
            have h2 := hi; rw [execLog_cons_stop m rest ctx c hskip hh] at h2
            simp at h2
        · cases i with
          | zero =>
            exfalso
            have := hk
            simp [execLog_cons_run m rest ctx c a hskip hh hrej] at this
          | succ k =>
            have hi' : k < (execLog rest { c with Status := a }).1.length := by
              have h2 := hi; rw [execLog_cons_run m rest ctx c a hskip hh hrej] at h2
              simpa using h2
            have hk' : ((execLog rest { c with Status := a }).1.get ⟨k, hi'⟩).kind
                = .skip := by
              have := hk
              simpa [execLog_cons_run m rest ctx c a hskip hh hrej] using this
            have hlast' : k + 1 = (execLog rest { c with Status := a }).1.length := by
              have := hlast; rw [execLog_cons_run m rest ctx c a hskip hh hrej] at this
              simpa using this
            have hres := ih { c with Status := a } k hi' hk' hlast'
            have hpre : ((execLog (m :: rest) ctx).1.get ⟨k + 1, hi⟩)
                = ((execLog rest { c with Status := a }).1.get ⟨k, hi'⟩) := by
              simp [execLog_cons_run m rest ctx c a hskip hh hrej]
            rw [hpre]
            rw [execLog_cons_run m rest ctx c a hskip hh hrej]
            simpa using hres

/-- Any non-nil error returned by a chain run comes from a handler fault:
there is a fault step, the error is the panic-recovery error for its
message, the returned action is `Reject`, and the returned context is the
context as it stood when the faulting handler was reached. -/
theorem execLog_error_fault (mc : MiddlewareChain) (ctx : Context) (e : GoError)
    (he : (execLog mc ctx).2.2.2 = some e) :
    ∃ i, ∃ hi : i < (execLog mc ctx).1.length, ∃ msg,
      ((execLog mc ctx).1.get ⟨i, hi⟩).kind = .fault msg ∧
      e = .generic (panicMsg msg) ∧
      (execLog mc ctx).2.1 = ((execLog mc ctx).1.get ⟨i, hi⟩).pre ∧
      (execLog mc ctx).2.2.1 = Reject := by
  induction mc generalizing ctx with
  | nil => simp [execLog] at he
  | cons m rest ih =>
    by_cases hskip : m.IgnoreFlags &&& ctx.Status ≠ 0
    · have he' : (execLog rest ctx).2.2.2 = some e := by
        have := he; rw [execLog_cons_skip m rest ctx hskip] at this; exact this
      obtain ⟨i, hi, msg, hk, hmsg, hctx, hact⟩ := ih ctx he'
      rw [execLog_cons_skip m rest ctx hskip]
      exact ⟨i + 1, by simpa using hi, msg, by simpa using hk, hmsg,
        by simpa using hctx, hact⟩
    · cases hh : m.Handler ctx with
      | fault msg =>
        rw [execLog_cons_fault m rest ctx msg hskip hh] at he ⊢
        simp only [Option.some_inj] at he
        exact ⟨0, by simp, msg, by simp, by simp [← he], by simp, by simp⟩
      | ok c a =>
        by_cases hrej : a = Reject
        · exfalso
          subst hrej
          have := he
          simp [execLog_cons_stop m rest ctx c hskip hh] at this
        · have he' : (execLog rest { c with Status := a }).2.2.2 = some e := by
            have := he; rw [execLog_cons_run m rest ctx c a hskip hh hrej] at this
            exact this
          obtain ⟨i, hi, msg, hk, hmsg, hctx, hact⟩ := ih { c with Status := a } he'
          rw [execLog_cons_run m rest ctx c a hskip hh hrej]
          exact ⟨i + 1, by simpa using hi, msg, by simpa using hk, hmsg,
            by simpa using hctx, hact⟩

/-- When a chain run returns a nil error, the returned action is exactly
the final context's status field (`return ctx.Status, nil`). -/
theorem Execute_none_action (mc : MiddlewareChain) (ctx : Context)
    (he : (MiddlewareChain.Execute mc ctx).2.2 = none) :
    (MiddlewareChain.Execute mc ctx).2.1 = (MiddlewareChain.Execute mc ctx).1.Status := by
  induction mc generalizing ctx with
  | nil => simp [MiddlewareChain.Execute]
  | cons m rest ih =>
    by_cases hskip : m.IgnoreFlags &&& ctx.Status ≠ 0
    · have he' : (MiddlewareChain.Execute rest ctx).2.2 = none := by
        have := he; simpa [MiddlewareChain.Execute, hskip] using this
      simpa [MiddlewareChain.Execute, hskip] using ih ctx he'
    · cases hh : m.Handler ctx with
      | fault msg =>
        exfalso
        have := he
        simp [MiddlewareChain.Execute, hskip, hh] at this
      | ok c a =>
        by_cases hrej : a = Reject
        · simp [MiddlewareChain.Execute, hskip, hh, hrej]
        · have he' : (MiddlewareChain.Execute rest { c with Status := a }).2.2 = none := by
            have := he; simpa [MiddlewareChain.Execute, hskip, hh, hrej] using this
          simpa [MiddlewareChain.Execute, hskip, hh, hrej] using
            ih { c with Status := a } he'

/-! Concrete units and contexts used by witnesses and counterexamples. -/

/-- A fresh context as produced by `NewContext`: status `Pass`, empty store. -/
def ctx0 : Context := ⟨Pass, []⟩

/-- A context already carrying the `Deliver` disposition. -/
def ctxD : Context := ⟨Deliver, []⟩

/-- A unit whose handler faults (panics) with payload `"boom"`. -/
def faultUnit : Middleware := ⟨fun _ => .fault "boom", DefaultIgnoreFlags⟩

/-- A unit that passes (returns `Pass`) with the default skip mask. -/
def passUnit : Middleware := ⟨fun c => .ok c Pass, DefaultIgnoreFlags⟩

/-- A unit that rejects with the default skip mask. -/
def rejectUnit : Middleware := ⟨fun c => .ok c Reject, DefaultIgnoreFlags⟩

/-- A unit that quarantines, with the default skip mask. -/
def quarantineUnit : Middleware := ⟨fun c => .ok c Quarantine, DefaultIgnoreFlags⟩

/-- A unit that quarantines but is masked by `IgnoreDeliver`. -/
def unitSkipOnDeliver : Middleware := ⟨fun c => .ok c Quarantine, IgnoreDeliver⟩

/-- A unit that quarantines, registered with the `Pass` bit as its skip mask
(the "never skip sentinel" of the spec). -/
def sentinelUnit : Middleware := ⟨fun c => .ok c Quarantine, Pass⟩

/-- The chain refuting claim C8: a defaulted pass-through unit followed by a
mask-`Pass` unit. -/
def chain8 : MiddlewareChain := [passUnit, sentinelUnit]

/-- Claim C1: if a handler panics during `MiddlewareChain.Execute`, the
recovery barrier makes `Execute` return normally (totality of the model)
with a final action of `Reject` and a non-nil error describing the fault,
and no subsequent unit of the chain is evaluated (the fault step is the
last entry of the execution log). -/
theorem claim1_fault_recovery (mc : MiddlewareChain) (ctx : Context)
    (i : Nat) (hi : i < (execLog mc ctx).1.length) (msg : String)
    (hk : ((execLog mc ctx).1.get ⟨i, hi⟩).kind = .fault msg) :
    (execLog mc ctx).1.length = i + 1 ∧
    MiddlewareChain.Execute mc ctx =
      (((execLog mc ctx).1.get ⟨i, hi⟩).pre, Reject,
        some (.generic (panicMsg msg))) := by
  have h := execLog_fault_last mc ctx i hi msg hk
  exact ⟨h.1, by rw [← execLog_snd]; exact h.2⟩

/-- Witness for C1 at a concrete faulting chain. -/
theorem claim1_fault_recovery_witness :
    (execLog [faultUnit] ctx0).1.length = 0 + 1 ∧
    MiddlewareChain.Execute [faultUnit] ctx0 =
      (((execLog [faultUnit] ctx0).1.get ⟨0, by decide⟩).pre, Reject,
        some (.generic (panicMsg "boom"))) :=
  claim1_fault_recovery [faultUnit] ctx0 0 (by decide) "boom" (by decide)

/-- Claim C3: a unit whose skip mask bitwise-ANDs non-zero with the status
at its evaluation is skipped: its handler is not invoked (the step is a
skip), the context is unchanged going into the next unit, the chain moves
on to the next unit when one exists, and if the skipped unit was the last
one the run ends with the status unchanged and no error. -/
theorem claim3_skip_semantics (mc : MiddlewareChain) (ctx : Context)
    (i : Nat) (hi : i < (execLog mc ctx).1.length) (hm : i < mc.length)
    (hmask : (mc.get ⟨i, hm⟩).IgnoreFlags &&&
      ((execLog mc ctx).1.get ⟨i, hi⟩).pre.Status ≠ 0) :
    ((execLog mc ctx).1.get ⟨i, hi⟩).kind = .skip ∧
    (∀ h2 : i + 1 < (execLog mc ctx).1.length,
      ((execLog mc ctx).1.get ⟨i + 1, h2⟩).pre =
        ((execLog mc ctx).1.get ⟨i, hi⟩).pre) ∧
    (i + 1 < mc.length → i + 1 < (execLog mc ctx).1.length) ∧
    (i + 1 = (execLog mc ctx).1.length →
      (execLog mc ctx).2 =
        (((execLog mc ctx).1.get ⟨i, hi⟩).pre,
          ((execLog mc ctx).1.get ⟨i, hi⟩).pre.Status, none)) := by
  have hskip := (execLog_skip_iff mc ctx i hi hm).mpr hmask
  refine ⟨hskip, ?_, ?_, ?_⟩
  · intro h2
    have hchain := execLog_pre_succ mc ctx i h2
    have hsame : (execLog mc ctx).1.get ⟨i, Nat.lt_of_succ_lt h2⟩
        = (execLog mc ctx).1.get ⟨i, hi⟩ := rfl
    rw [hchain, hsame]
    unfold Step.post
    rw [hskip]
  · intro hnext
    exact (execLog_skip_next mc ctx i hi hskip).mpr hnext
  · intro hlast
    exact execLog_skip_last mc ctx i hi hskip hlast

/-- Witness for C3: a unit masked by `IgnoreDeliver` on a `Deliver` context
is skipped. -/
theorem claim3_skip_semantics_witness :
    ((execLog [unitSkipOnDeliver] ctxD).1.get ⟨0, by decide⟩).kind = .skip :=
  (claim3_skip_semantics [unitSkipOnDeliver] ctxD 0 (by decide) (by decide)
    (by decide)).1

/-- Claim C4: a handler returning `Reject` normally stops the chain at that
unit: the stop step is the last entry of the log (no later handler is
invoked), and the overall result is action `Reject` with a nil error — no
later unit can overwrite it because none is evaluated. -/
theorem claim4_reject_terminal (mc : MiddlewareChain) (ctx : Context)
    (i : Nat) (hi : i < (execLog mc ctx).1.length) (c' : Context)
    (hk : ((execLog mc ctx).1.get ⟨i, hi⟩).kind = .stop c') :
    (execLog mc ctx).1.length = i + 1 ∧
    MiddlewareChain.Execute mc ctx = (c', Reject, none) := by
  have h := execLog_stop_last mc ctx i hi c' hk
  exact ⟨h.1, by rw [← execLog_snd]; exact h.2.1⟩

/-- Witness for C4: a rejecting unit followed by another unit — the log has
exactly one step and the chain rejects with no error. -/
theorem claim4_reject_terminal_witness :
    (execLog [rejectUnit, quarantineUnit] ctx0).1.length = 0 + 1 ∧
    MiddlewareChain.Execute [rejectUnit, quarantineUnit] ctx0 =
      (⟨Reject, []⟩, Reject, none) :=
  claim4_reject_terminal [rejectUnit, quarantineUnit] ctx0 0 (by decide)
    ⟨Reject, []⟩ (by decide)

/-- Claim C8 is FALSE on the code: the claim says the status never again
equals the `Pass` bit at a later skip evaluation once the first non-skipped
unit has run, so that a mask-`Pass` unit is never skipped after the first
unit runs.  In `chain8`, on a fresh context, the first unit runs (it is not
skipped) and returns `Pass`, which `ctx.Status = m.Handler(ctx)` writes
back; at the second unit's skip evaluation the status is therefore `Pass`
again, and the second unit — whose skip mask is exactly the `Pass` bit —
is skipped. -/
theorem claim8_counterexample :
    ((execLog chain8 ctx0).1.get ⟨0, by decide⟩).kind ≠ .skip ∧
    ((execLog chain8 ctx0).1.get ⟨1, by decide⟩).pre.Status = Pass ∧
    ((execLog chain8 ctx0).1.get ⟨1, by decide⟩).kind = .skip ∧
    sentinelUnit.IgnoreFlags = Pass := by decide

/-- Claim C8 amended: a unit whose skip mask is exactly the `Pass` bit is
skipped at its evaluation exactly when the `Pass` bit is set in the current
status — which recurs whenever the previous handler returned `Pass` — so
the `Pass` mask is a never-skip sentinel only against contexts whose status
has the `Pass` bit cleared (e.g. a disposition status). -/
theorem claim8_amended_pass_mask (mc : MiddlewareChain) (ctx : Context)
    (j : Nat) (hj : j < (execLog mc ctx).1.length) (hm : j < mc.length)
    (hflag : (mc.get ⟨j, hm⟩).IgnoreFlags = Pass) :
    ((execLog mc ctx).1.get ⟨j, hj⟩).kind = .skip ↔
      Pass &&& ((execLog mc ctx).1.get ⟨j, hj⟩).pre.Status ≠ 0 := by
  have h := execLog_skip_iff mc ctx j hj hm
  rwa [hflag] at h

/-- Witness for the amended C8 on the concrete chain. -/
theorem claim8_amended_pass_mask_witness :
    ((execLog chain8 ctx0).1.get ⟨1, by decide⟩).kind = .skip :=
  (claim8_amended_pass_mask chain8 ctx0 1 (by decide) (by decide)
    (by decide)).mpr (by decide)

/-! ## Session layer (`brisa.go`, `errors.go`)

The per-session view of the routing table: a `Session` only reads
`(*s.router)[chainType]`, so for the session-level claims the table is
embedded as an association list from chain type to chain.  (The heap-level
aliasing behaviour of `Router.Use` / `Router.Clone` / `Brisa.UpdateRouter`
is modelled separately below for claim C2.) -/

/-- `ChainType` — the stage identifiers of `brisa.go`. -/
inductive ChainType where
  | conn | mailFrom | rcptTo | data | deliver | quarantine | reject | discard
deriving DecidableEq, Repr

/-- The routing-table contents a session reads: stage identifier to chain. -/
abbrev Router := List (ChainType × MiddlewareChain)

/-- Go map lookup `(*s.router)[chainType]` — returns the chain and whether
the entry exists. -/
def Router.find : Router → ChainType → Option MiddlewareChain
  | [], _ => none
  | (k, c) :: rest, ct => if k = ct then some c else Router.find rest ct

/-- `ErrRejectedByPolicy` (`errors.go`): 554, 5.7.1. -/
def ErrRejectedByPolicy : SMTPError :=
  ⟨554, (5, 7, 1), "Message rejected due to policy"⟩

/-- `ErrInternalServer` (`errors.go`): 451, 4.3.0. -/
def ErrInternalServer : SMTPError :=
  ⟨451, (4, 3, 0), "Internal server error, please try again later"⟩

/-- `ErrTryAgainLater` (`errors.go`): 421, 4.3.2. -/
def ErrTryAgainLater : SMTPError :=
  ⟨421, (4, 3, 2), "Service temporarily unavailable, please try again later"⟩

/-- `ErrInvalidAction` (`errors.go`): 554, 5.3.5. -/
def ErrInvalidAction : SMTPError :=
  ⟨554, (5, 3, 5), "Transaction failed due to an invalid internal state"⟩

/-- The reject-disposition phase of `Session.execute` (`brisa.go` lines
291-298): if a reject chain is bound it is executed on the context (its
error is logged, not propagated); otherwise the context is untouched. -/
def rejectPhase (router : Router) (c : Context) : Context :=
  match router.find ChainType.reject with
  | some rc => (MiddlewareChain.Execute rc c).1
  | none => c

/-- The tail of `Session.execute` (`brisa.go` lines 288-314): given the
chain outcome `(ctx, action, err)`, if `err != nil || action == Reject`
the context status is set to `Reject`, the reject chain is best-effort run,
and the error is classified — a structured SMTP error is forwarded
verbatim, any other non-nil error becomes `ErrInternalServer`, and a nil
error (i.e. a plain `Reject`) becomes `ErrRejectedByPolicy`.  Otherwise
the command succeeds. -/
def handleOutcome (router : Router) (out : Context × Action × Option GoError) :
    Context × Option SMTPError :=
  match out with
  | (c, a, e) =>
    if e.isSome ∨ a = Reject then
      let c2 := rejectPhase router { c with Status := Reject }
      match e with
      | some (.smtp s) => (c2, some s)
      | some (.generic _) => (c2, some ErrInternalServer)
      | none => (c2, some ErrRejectedByPolicy)
    else (c, none)

/-- `Session.execute` (`brisa.go` lines 269-317): fetch the stage's chain —
an absent entry means the command is allowed with the context untouched —
execute it, and classify the outcome.  Observer hooks carry no control
flow and are not modelled.  Returns the final context and the SMTP error
returned to the transport engine (`none` = success). -/
def sessionExecute (router : Router) (chainType : ChainType) (ctx : Context) :
    Context × Option SMTPError :=
  match router.find chainType with
  | none => (ctx, none)
  | some chain => handleOutcome router (MiddlewareChain.Execute chain ctx)

/-- `Session.Data` (`brisa.go` lines 198-243): run the data chain (failures
propagate); coerce a leftover `Pass` status to `Deliver`; dispatch the
disposition chain matching the status — `Deliver` and `Quarantine` chain
errors propagate, a `Discard` chain error is only logged and the
transaction still succeeds — and any other status is the invalid-internal-
state error.  The body-drain step is transport-level I/O and is not
modelled. -/
def sessionData (router : Router) (ctx : Context) : Context × Option SMTPError :=
  match sessionExecute router ChainType.data ctx with
  | (c1, some e) => (c1, some e)
  | (c1, none) =>
    let c2 := if c1.Status = Pass then { c1 with Status := Deliver } else c1
    if c2.Status = Deliver then sessionExecute router ChainType.deliver c2
    else if c2.Status = Quarantine then sessionExecute router ChainType.quarantine c2
    else if c2.Status = Discard then
      ((sessionExecute router ChainType.discard c2).1, none)
    else (c2, some ErrInvalidAction)

/-- A context already carrying the `Reject` status (e.g. after a rejected
command in the same session, since `resetMailTransaction` does not reset
the status field). -/
def ctxR : Context := ⟨Reject, []⟩

/-- Claim C5: in `Session.Data`, a data-chain error propagates; otherwise a
`Pass` status is coerced to `Deliver` before disposition dispatch; exactly
the disposition chain matching the status runs; a `Discard` chain error is
only logged (the transaction still succeeds); and a status that is none of
the three dispositions yields `ErrInvalidAction`. -/
theorem claim5_data_dispatch (router : Router) (ctx : Context) :
    (∀ c1 e, sessionExecute router ChainType.data ctx = (c1, some e) →
      sessionData router ctx = (c1, some e)) ∧
    (∀ c1, sessionExecute router ChainType.data ctx = (c1, none) →
      (c1.Status = Pass →
        sessionData router ctx =
          sessionExecute router ChainType.deliver { c1 with Status := Deliver }) ∧
      (c1.Status = Deliver →
        sessionData router ctx = sessionExecute router ChainType.deliver c1) ∧
      (c1.Status = Quarantine →
        sessionData router ctx = sessionExecute router ChainType.quarantine c1) ∧
      (c1.Status = Discard →
        sessionData router ctx =
          ((sessionExecute router ChainType.discard c1).1, none)) ∧
      (c1.Status ≠ Pass → c1.Status ≠ Deliver → c1.Status ≠ Quarantine →
        c1.Status ≠ Discard →
        sessionData router ctx = (c1, some ErrInvalidAction))) := by
  constructor
  · intro c1 e h
    simp [sessionData, h]
  · intro c1 h
    refine ⟨?_, ?_, ?_, ?_, ?_⟩
    · intro hp
      simp [sessionData, h, hp]
    · intro hd
      simp [sessionData, h, hd, Pass, Deliver]
    · intro hq
      simp [sessionData, h, hq, Pass, Deliver, Quarantine]
    · intro hdi
      simp [sessionData, h, hdi, Pass, Deliver, Quarantine, Discard]
    · intro hnp hnd hnq hndi
      simp [sessionData, h, hnp, hnd, hnq, hndi]

/-- Witness for C5: empty table, fresh context — the `Pass` status left by
the (absent) data chain is coerced to `Deliver` and the deliver stage is
dispatched. -/
theorem claim5_data_dispatch_witness :
    sessionData [] ctx0 = sessionExecute [] ChainType.deliver ⟨Deliver, []⟩ :=
  ((claim5_data_dispatch [] ctx0).2 ctx0 rfl).1 rfl

/-- Claim C6: `Session.execute` classifies the chain outcome — when the
stage has a bound chain, the result is `handleOutcome` of the chain run;
`(Reject, nil)` maps to `ErrRejectedByPolicy` (554); a non-nil error
carrying a structured SMTP error is forwarded verbatim; any other non-nil
error (a recovered fault) maps to `ErrInternalServer` (451, temporary);
and a nil error with a non-`Reject` action succeeds with the context as
the chain left it. -/
theorem claim6_outcome_classification (router : Router) (ct : ChainType)
    (ctx : Context) (chain : MiddlewareChain)
    (hc : router.find ct = some chain) :
    sessionExecute router ct ctx =
      handleOutcome router (MiddlewareChain.Execute chain ctx) ∧
    (∀ c, (handleOutcome router (c, Reject, none)).2 = some ErrRejectedByPolicy) ∧
    (∀ c a s, (handleOutcome router (c, a, some (.smtp s))).2 = some s) ∧
    (∀ c a msg,
      (handleOutcome router (c, a, some (.generic msg))).2 = some ErrInternalServer) ∧
    (∀ c a, a ≠ Reject → handleOutcome router (c, a, none) = (c, none)) := by
  refine ⟨?_, ?_, ?_, ?_, ?_⟩
  · simp [sessionExecute, hc]
  · intro c; simp [handleOutcome]
  · intro c a s; simp [handleOutcome]
  · intro c a msg; simp [handleOutcome]
  · intro c a ha; simp [handleOutcome, ha]

/-- Witness for C6: a one-unit rejecting conn chain yields the policy
rejection. -/
theorem claim6_outcome_classification_witness :
    (sessionExecute [(ChainType.conn, [rejectUnit])] ChainType.conn ctx0).2 =
      some ErrRejectedByPolicy := by
  have h := claim6_outcome_classification [(ChainType.conn, [rejectUnit])]
    ChainType.conn ctx0 [rejectUnit] rfl
  rw [h.1]
  rw [show MiddlewareChain.Execute [rejectUnit] ctx0 =
    ((⟨Reject, []⟩ : Context), Reject, none) from rfl]
  exact h.2.1 ⟨Reject, []⟩

/-- Claim C9 is FALSE on the code as universally stated: with a context
whose status is already `Reject` (reachable, since `resetMailTransaction`
does not reset the status after a rejected command), an absent stage entry
auto-passes, while the same stage bound to an empty chain returns
`(Reject, nil)` from `Execute`, which `Session.execute` turns into the
policy-rejection error. -/
theorem claim9_counterexample :
    sessionExecute [] ChainType.mailFrom ctxR = (ctxR, none) ∧
    sessionExecute [(ChainType.mailFrom, [])] ChainType.mailFrom ctxR =
      (ctxR, some ErrRejectedByPolicy) ∧
    some ErrRejectedByPolicy ≠ (none : Option SMTPError) := by
  refine ⟨rfl, rfl, by decide⟩

/-- Claim C9 amended: for every context whose current status is not
`Reject`, executing a stage whose entry is absent is observationally
equivalent to executing it bound to an empty chain — both succeed and
leave the context unchanged. -/
theorem claim9_amended_absent_empty (router : Router) (ct : ChainType)
    (ctx : Context) (habs : router.find ct = none) (hst : ctx.Status ≠ Reject) :
    sessionExecute router ct ctx = (ctx, none) ∧
    sessionExecute ((ct, []) :: router) ct ctx = (ctx, none) := by
  constructor
  · simp [sessionExecute, habs]
  · simp [sessionExecute, Router.find, MiddlewareChain.Execute, handleOutcome, hst]

/-- Witness for the amended C9. -/
theorem claim9_amended_absent_empty_witness :
    sessionExecute [(ChainType.rcptTo, [])] ChainType.rcptTo ctx0 = (ctx0, none) :=
  (claim9_amended_absent_empty [] ChainType.rcptTo ctx0 rfl (by decide)).2

/-- Claim C10: `MiddlewareChain.Execute` writes the status only through
normal handler returns — on a nil error the returned action equals the
final context's status; on a non-nil error the action is `Reject` while
the context is exactly the one the faulting handler was reached at (its
status untouched by the executor); and it is the `Session.execute` wrapper
that afterwards sets the status to `Reject` (the context it hands to the
reject phase has status `Reject`, and with no reject chain bound the final
status is `Reject`). -/
theorem claim10_status_discipline :
    (∀ mc ctx, (MiddlewareChain.Execute mc ctx).2.2 = none →
      (MiddlewareChain.Execute mc ctx).2.1 = (MiddlewareChain.Execute mc ctx).1.Status) ∧
    (∀ mc ctx e, (MiddlewareChain.Execute mc ctx).2.2 = some e →
      (MiddlewareChain.Execute mc ctx).2.1 = Reject ∧
      ∃ i, ∃ hi : i < (execLog mc ctx).1.length, ∃ msg,
        ((execLog mc ctx).1.get ⟨i, hi⟩).kind = .fault msg ∧
        (MiddlewareChain.Execute mc ctx).1 = ((execLog mc ctx).1.get ⟨i, hi⟩).pre) ∧
    (∀ router ct ctx chain c a e, Router.find router ct = some chain →
      MiddlewareChain.Execute chain ctx = (c, a, some e) →
      sessionExecute router ct ctx =
        (rejectPhase router { c with Status := Reject },
          match e with
          | .smtp s => some s
          | .generic _ => some ErrInternalServer)) ∧
    (∀ router ct ctx chain c a e, Router.find router ct = some chain →
      MiddlewareChain.Execute chain ctx = (c, a, some e) →
      Router.find router ChainType.reject = none →
      (sessionExecute router ct ctx).1.Status = Reject) := by
  refine ⟨?_, ?_, ?_, ?_⟩
  · exact Execute_none_action
  · intro mc ctx e he
    have he' : (execLog mc ctx).2.2.2 = some e := by
      rw [execLog_snd]; exact he
    obtain ⟨i, hi, msg, hk, _, hctx, hact⟩ := execLog_error_fault mc ctx e he'
    refine ⟨?_, i, hi, msg, hk, ?_⟩
    · rw [← execLog_snd]; exact hact
    · rw [← execLog_snd]; exact hctx
  · intro router ct ctx chain c a e hfind hexec
    cases e with
    | smtp s => simp [sessionExecute, hfind, hexec, handleOutcome]
    | generic msg => simp [sessionExecute, hfind, hexec, handleOutcome]
  · intro router ct ctx chain c a e hfind hexec hrej
    cases e with
    | smtp s => simp [sessionExecute, hfind, hexec, handleOutcome, rejectPhase, hrej]
    | generic msg => simp [sessionExecute, hfind, hexec, handleOutcome, rejectPhase, hrej]

/-- Witness for C10: the faulting chain returns `Reject` as its action
while leaving the context status at its pre-fault value `Pass`. -/
theorem claim10_status_discipline_witness :
    (MiddlewareChain.Execute [faultUnit] ctx0).2.1 = Reject ∧
    (MiddlewareChain.Execute [faultUnit] ctx0).1.Status = Pass := by
  have h := (claim10_status_discipline.2.1 [faultUnit] ctx0
    (.generic (panicMsg "boom")) (by decide)).1
  exact ⟨h, by decide⟩

/-! ## Heap model of Router mutation (claims C2 and C7)

`Router` in Go is `map[ChainType]MiddlewareChain` handled through pointers,
and a `MiddlewareChain` is a slice — a view `(array, len, cap)` onto a
shared backing array.  `Router.Use` appends with Go `append` semantics
(in-place write when capacity remains, reallocation otherwise), and
`Router.Clone` builds a new map whose chains are fresh slices
(`make(len, cap)` + `copy`).  To reason about the isolation claims this is
embedded as an explicit heap: backing arrays and router objects live in
`Nat`-indexed heaps, slices hold an array reference, and mutation is
function update. -/

/-- The zero `Middleware` value (used as the junk filler of unused slice
capacity; it is never observable through a slice's length). -/
def mwZero : Middleware := ⟨fun c => .ok c Pass, 0⟩

/-- A Go slice header: backing array reference (`none` = nil slice),
length and capacity. -/
structure Slice where
  arr : Option Nat
  len : Nat
  cap : Nat
deriving DecidableEq, Repr

/-- A backing array: its list of cells (the list length is the capacity). -/
abbrev ArrayObj := List Middleware

/-- A `Router` object: the map from chain type to slice header. -/
abbrev RouterObj := List (ChainType × Slice)

/-- Function update on a `Nat`-indexed heap. -/
def upd {α : Type} (f : Nat → α) (i : Nat) (v : α) : Nat → α :=
  fun j => if j = i then v else f j

theorem upd_same {α : Type} (f : Nat → α) (i : Nat) (v : α) : upd f i v i = v := by
  simp [upd]

theorem upd_ne {α : Type} (f : Nat → α) (i : Nat) (v : α) {j : Nat} (h : j ≠ i) :
    upd f i v j = f j := by
  simp [upd, h]

/-- The world: the array heap, the router-object heap, the gateway's
atomically-swappable published slot (`Brisa.router`), and the router
references captured by sessions at `NewSession`. -/
structure GoWorld where
  arrays : Nat → ArrayObj
  arrCount : Nat
  routers : Nat → RouterObj
  routerCount : Nat
  published : Option Nat
  sessions : List Nat

/-- Go map lookup inside a router object. -/
def objFind : RouterObj → ChainType → Option Slice
  | [], _ => none
  | (k, s) :: rest, ct => if k = ct then some s else objFind rest ct

/-- Go map store inside a router object. -/
def objSet : RouterObj → ChainType → Slice → RouterObj
  | [], ct, s => [(ct, s)]
  | (k, s0) :: rest, ct, s =>
    if k = ct then (k, s) :: rest else (k, s0) :: objSet rest ct s

/-- The chain a slice denotes: the first `len` cells of its backing array. -/
def sliceDenote (w : GoWorld) (s : Slice) : List Middleware :=
  match s.arr with
  | none => []
  | some a => (w.arrays a).take s.len

/-- Go `append(s, x)`: write in place if capacity remains, else allocate a
fresh, larger backing array (the growth factor is the doubling rule; the
claims do not depend on the exact factor). -/
def goAppend (w : GoWorld) (s : Slice) (x : Middleware) : Slice × GoWorld :=
  match s.arr with
  | none =>
    (⟨some w.arrCount, 1, 1⟩,
      { w with arrays := upd w.arrays w.arrCount [x], arrCount := w.arrCount + 1 })
  | some a =>
    if s.len < s.cap then
      (⟨some a, s.len + 1, s.cap⟩,
        { w with arrays := upd w.arrays a ((w.arrays a).set s.len x) })
    else
      (⟨some w.arrCount, s.len + 1, max (2 * s.cap) (s.len + 1)⟩,
        { w with
            arrays := upd w.arrays w.arrCount
              ((w.arrays a).take s.len ++ x ::
                List.replicate (max (2 * s.cap) (s.len + 1) - (s.len + 1)) mwZero),
            arrCount := w.arrCount + 1 })

/-- `Router.Use` (`brisa.go` lines 38-43) for one middleware: read the
chain slice for the stage (a missing key reads the nil slice), append the
middleware value, and store the resulting slice back in the map.  Note:
no default-mask substitution happens here. -/
def routerUse (w : GoWorld) (r : Nat) (ct : ChainType) (m : Middleware) : GoWorld :=
  let obj := w.routers r
  let s := (objFind obj ct).getD ⟨none, 0, 0⟩
  let p := goAppend w s m
  { p.2 with routers := upd p.2.routers r (objSet obj ct p.1) }

/-- The per-entry loop of `Router.Clone` (`brisa.go` lines 89-98): for each
chain, allocate a fresh backing array of the same capacity
(`make(MiddlewareChain, len(chain), cap(chain))`) and copy the `len` live
cells into it. -/
def cloneEntries (w : GoWorld) : RouterObj → RouterObj × GoWorld
  | [] => ([], w)
  | (ct, s) :: rest =>
    let sNew : Slice := ⟨some w.arrCount, s.len, s.cap⟩
    let w1 : GoWorld :=
      { w with
          arrays := upd w.arrays w.arrCount
            (sliceDenote w s ++ List.replicate (s.cap - s.len) mwZero),
          arrCount := w.arrCount + 1 }
    let p := cloneEntries w1 rest
    ((ct, sNew) :: p.1, p.2)

/-- `Router.Clone`: a new router object over entirely fresh backing
arrays; returns the new router reference. -/
def routerCloneW (w : GoWorld) (r : Nat) : Nat × GoWorld :=
  let p := cloneEntries w (w.routers r)
  (p.2.routerCount,
    { p.2 with
        routers := upd p.2.routers p.2.routerCount p.1,
        routerCount := p.2.routerCount + 1 })

/-- `Brisa.UpdateRouter` (`brisa.go` lines 128-132): atomically store a
deep clone of the argument router — never the caller's live object. -/
def updateRouterW (w : GoWorld) (r : Nat) : GoWorld :=
  let p := routerCloneW w r
  { p.2 with published := some p.1 }

/-- `Brisa.NewSession` (`brisa.go` lines 135-161), restricted to the router
snapshot: the session captures the currently published router reference
(`b.router.Load()`) and keeps it for its whole lifetime. -/
def newSessionW (w : GoWorld) : GoWorld :=
  match w.published with
  | some p => { w with sessions := w.sessions ++ [p] }
  | none => w

/-- The table contents a router reference denotes: each stage with the
middleware list its slice currently views. -/
def denoteObj (w : GoWorld) (obj : RouterObj) : List (ChainType × List Middleware) :=
  obj.map fun e => (e.1, sliceDenote w e.2)

/-- The table contents of the router at reference `r`. -/
def denoteRouter (w : GoWorld) (r : Nat) : List (ChainType × List Middleware) :=
  denoteObj w (w.routers r)

/-- The middleware list currently bound to stage `ct` of router `r`
(missing entry = empty chain). -/
def chainAt (w : GoWorld) (r : Nat) (ct : ChainType) : List Middleware :=
  match objFind (w.routers r) ct with
  | some s => sliceDenote w s
  | none => []

/-- An array reference is reachable from a router object. -/
def usesArr (obj : RouterObj) (a : Nat) : Prop :=
  ∃ ct s, (ct, s) ∈ obj ∧ s.arr = some a

/-- A well-formed slice: a nil slice is empty, and a real one points below
the allocation frontier at an array whose size is the capacity. -/
def SliceWF (w : GoWorld) (s : Slice) : Prop :=
  match s.arr with
  | none => s.len = 0 ∧ s.cap = 0
  | some a => a < w.arrCount ∧ s.len ≤ s.cap ∧ (w.arrays a).length = s.cap

/-- A well-formed world: every slice of every router object is well
formed. -/
def WF (w : GoWorld) : Prop :=
  ∀ j ct s, (ct, s) ∈ w.routers j → SliceWF w s

/-- The operations the claims quantify over: a caller mutating some router
(`Use`), a hot reload (`UpdateRouter`), and a session start. -/
inductive COp where
  | use (r : Nat) (ct : ChainType) (m : Middleware)
  | updateRouter (r : Nat)
  | newSession

/-- Apply one operation. -/
def applyOp (w : GoWorld) : COp → GoWorld
  | .use r ct m => routerUse w r ct m
  | .updateRouter r => updateRouterW w r
  | .newSession => newSessionW w

/-- Apply a sequence of operations in order. -/
def applyOps (w : GoWorld) : List COp → GoWorld
  | [] => w
  | op :: rest => applyOps (applyOp w op) rest

theorem take_set_succ {α : Type} (l : List α) (n : Nat) (x : α) (h : n < l.length) :
    (l.set n x).take (n + 1) = l.take n ++ [x] := by
  induction l generalizing n with
  | nil => simp at h
  | cons y ys ih =>
    cases n with
    | zero => simp
    | succ k =>
      have hk : k < ys.length := by simpa using h
      simp [ih k hk]

theorem take_append_cons {α : Type} (A B : List α) (x : α) (n : Nat) (h : A.length = n) :
    (A ++ x :: B).take (n + 1) = A ++ [x] := by
  subst h
  have h2 : A ++ x :: B = (A ++ [x]) ++ B := by simp
  rw [h2]
  have hl : A.length + 1 = (A ++ [x]).length := by simp
  rw [hl]
  exact List.take_left _ _

theorem sliceDenote_length (w : GoWorld) (s : Slice) (hwf : SliceWF w s) :
    (sliceDenote w s).length = s.len := by
  cases hs : s.arr with
  | none =>
    have h := hwf
    unfold SliceWF at h
    rw [hs] at h
    simp [sliceDenote, hs, h.1]
  | some a =>
    have h := hwf
    unfold SliceWF at h
    rw [hs] at h
    simp [sliceDenote, hs]
    omega

theorem sliceDenote_congr (w w' : GoWorld) (s : Slice)
    (h : ∀ a, s.arr = some a → w'.arrays a = w.arrays a) :
    sliceDenote w' s = sliceDenote w s := by
  cases hs : s.arr with
  | none => simp [sliceDenote, hs]
  | some a => simp [sliceDenote, hs, h a hs]

theorem denoteObj_congr (w w' : GoWorld) (obj : RouterObj)
    (h : ∀ a, usesArr obj a → w'.arrays a = w.arrays a) :
    denoteObj w' obj = denoteObj w obj := by
  induction obj with
  | nil => rfl
  | cons e rest ih =>
    obtain ⟨ct, s⟩ := e
    have hhead : sliceDenote w' s = sliceDenote w s := by
      refine sliceDenote_congr w w' s fun a ha => h a ?_
      exact ⟨ct, s, List.mem_cons_self _ _, ha⟩
    have htail : denoteObj w' rest = denoteObj w rest := by
      refine ih fun a ha => h a ?_
      obtain ⟨ct2, s2, hm, ha2⟩ := ha
      exact ⟨ct2, s2, List.mem_cons_of_mem _ hm, ha2⟩
    simp [denoteObj, hhead]
    simpa [denoteObj] using htail

theorem objFind_mem (obj : RouterObj) (ct : ChainType) (s : Slice)
    (h : objFind obj ct = some s) : (ct, s) ∈ obj := by
  induction obj with
  | nil => simp [objFind] at h
  | cons e rest ih =>
    obtain ⟨k, s0⟩ := e
    by_cases hk : k = ct
    · subst hk
      simp [objFind] at h
      simp [h]
    · simp [objFind, hk] at h
      exact List.mem_cons_of_mem _ (ih h)

theorem objSet_mem (obj : RouterObj) (ct : ChainType) (s : Slice)
    (ct' : ChainType) (s' : Slice) (h : (ct', s') ∈ objSet obj ct s) :
    s' = s ∨ (ct', s') ∈ obj := by
  induction obj with
  | nil =>
    simp [objSet] at h
    exact Or.inl h.2
  | cons e rest ih =>
    obtain ⟨k, s0⟩ := e
    by_cases hk : k = ct
    · subst hk
      simp only [objSet, if_pos rfl] at h
      rcases List.mem_cons.mp h with h1 | h1
      · exact Or.inl (congrArg Prod.snd h1)
      · exact Or.inr (List.mem_cons_of_mem _ h1)
    · simp only [objSet, if_neg hk] at h
      rcases List.mem_cons.mp h with h1 | h1
      · exact Or.inr (by simp [h1])
      · rcases ih h1 with h2 | h2
        · exact Or.inl h2
        · exact Or.inr (List.mem_cons_of_mem _ h2)

theorem objFind_objSet_same (obj : RouterObj) (ct : ChainType) (s : Slice) :
    objFind (objSet obj ct s) ct = some s := by
  induction obj with
  | nil => simp [objSet, objFind]
  | cons e rest ih =>
    obtain ⟨k, s0⟩ := e
    by_cases hk : k = ct
    · subst hk
      simp [objSet, objFind]
    · simp [objSet, objFind, hk, ih]

theorem SliceWF_mono (w w' : GoWorld) (s : Slice)
    (hcount : w.arrCount ≤ w'.arrCount)
    (hlen : ∀ a, a < w.arrCount → (w'.arrays a).length = (w.arrays a).length)
    (hwf : SliceWF w s) : SliceWF w' s := by
  cases hs : s.arr with
  | none =>
    have h := hwf; unfold SliceWF at h ⊢; rw [hs] at h ⊢; exact h
  | some a =>
    have h := hwf; unfold SliceWF at h ⊢; rw [hs] at h ⊢
    exact ⟨lt_of_lt_of_le h.1 hcount, h.2.1, by rw [hlen a h.1]; exact h.2.2⟩

/-- The behaviour of Go `append` needed by the isolation claims: the
appended slice denotes the old chain plus the new element; the result
slice is well formed; the allocation frontier only grows; existing arrays
keep their sizes; arrays other than the slice's own backing array are
untouched; and no other world component changes. -/
theorem goAppend_spec (w : GoWorld) (s : Slice) (x : Middleware)
    (hwf : SliceWF w s) :
    sliceDenote (goAppend w s x).2 (goAppend w s x).1 = sliceDenote w s ++ [x] ∧
    SliceWF (goAppend w s x).2 (goAppend w s x).1 ∧
    w.arrCount ≤ (goAppend w s x).2.arrCount ∧
    (∀ a, a < w.arrCount →
      ((goAppend w s x).2.arrays a).length = (w.arrays a).length) ∧
    (∀ a, a < w.arrCount → s.arr ≠ some a →
      (goAppend w s x).2.arrays a = w.arrays a) ∧
    (∀ a, (goAppend w s x).1.arr = some a → s.arr = some a ∨ a = w.arrCount) ∧
    (goAppend w s x).2.routers = w.routers ∧
    (goAppend w s x).2.routerCount = w.routerCount ∧
    (goAppend w s x).2.published = w.published ∧
    (goAppend w s x).2.sessions = w.sessions := by
  obtain ⟨sa, slen, scap⟩ := s
  cases sa with
  | none =>
    have h := hwf; unfold SliceWF at h; simp only at h
    obtain ⟨h1, h2⟩ := h
    subst h1; subst h2
    refine ⟨?_, ?_, ?_, ?_, ?_, ?_, rfl, rfl, rfl, rfl⟩
    · simp [goAppend, sliceDenote, upd_same]
    · unfold SliceWF
      simp [goAppend, upd_same]
    · simp [goAppend]
    · intro a ha
      simp only [goAppend]
      rw [upd_ne _ _ _ (by omega)]
    · intro a ha _
      simp only [goAppend]
      rw [upd_ne _ _ _ (by omega)]
    · intro a ha
      simp only [goAppend] at ha
      right
      exact (Option.some_inj.mp ha).symm
  | some a0 =>
    have h := hwf; unfold SliceWF at h; simp only at h
    obtain ⟨ha0, hlc, hlen⟩ := h
    by_cases hcap : slen < scap
    · refine ⟨?_, ?_, ?_, ?_, ?_, ?_, ?_, ?_, ?_, ?_⟩
      · simp only [goAppend, if_pos hcap, sliceDenote, upd_same]
        exact take_set_succ _ _ _ (by omega)
      · unfold SliceWF
        simp only [goAppend, if_pos hcap, upd_same]
        refine ⟨ha0, by omega, by simp [hlen]⟩
      · simp [goAppend, hcap]
      · intro a ha
        simp only [goAppend, if_pos hcap]
        by_cases haa : a = a0
        · subst haa; rw [upd_same]; simp [hlen]
        · rw [upd_ne _ _ _ haa]
      · intro a ha hne
        simp only [goAppend, if_pos hcap]
        rw [upd_ne _ _ _ (by intro hc; exact hne (by rw [hc]))]
      · intro a ha
        simp only [goAppend, if_pos hcap] at ha
        exact Or.inl ha
      · simp [goAppend, hcap]
      · simp [goAppend, hcap]
      · simp [goAppend, hcap]
      · simp [goAppend, hcap]
    · have hle : slen = scap := by omega
      refine ⟨?_, ?_, ?_, ?_, ?_, ?_, ?_, ?_, ?_, ?_⟩
      · simp only [goAppend, if_neg hcap, sliceDenote, upd_same]
        refine take_append_cons _ _ _ _ ?_
        simp
        omega
      · unfold SliceWF
        simp only [goAppend, if_neg hcap, upd_same]
        refine ⟨by omega, by omega, ?_⟩
        simp [List.length_replicate]
        omega
      · simp [goAppend, hcap]
      · intro a ha
        simp only [goAppend, if_neg hcap]
        rw [upd_ne _ _ _ (by omega)]
      · intro a ha _
        simp only [goAppend, if_neg hcap]
        rw [upd_ne _ _ _ (by omega)]
      · intro a ha
        simp only [goAppend, if_neg hcap] at ha
        right
        exact (Option.some_inj.mp ha).symm
      · simp [goAppend, hcap]
      · simp [goAppend, hcap]
      · simp [goAppend, hcap]
      · simp [goAppend, hcap]

/-- The slice `Router.Use` starts from is well formed: either it is in the
map, or it is the nil slice. -/
theorem use_slice_wf (w : GoWorld) (r : Nat) (ct : ChainType) (hwf : WF w) :
    SliceWF w ((objFind (w.routers r) ct).getD ⟨none, 0, 0⟩) := by
  cases hf : objFind (w.routers r) ct with
  | none =>
    unfold SliceWF
    simp
  | some s =>
    simp only [hf, Option.getD_some]
    exact hwf r ct s (objFind_mem _ _ _ hf)

/-- Frame and preservation facts for `Router.Use`: other routers are
untouched; the allocation frontier grows; array sizes are kept; arrays not
reachable from the mutated router are untouched; bookkeeping fields are
unchanged; well-formedness is preserved; and any array the mutated router
reaches afterwards was reachable before or is the fresh one. -/
theorem routerUse_spec (w : GoWorld) (r : Nat) (ct : ChainType) (m : Middleware)
    (hwf : WF w) :
    (∀ j, j ≠ r → (routerUse w r ct m).routers j = w.routers j) ∧
    w.arrCount ≤ (routerUse w r ct m).arrCount ∧
    (∀ a, a < w.arrCount →
      ((routerUse w r ct m).arrays a).length = (w.arrays a).length) ∧
    (∀ a, a < w.arrCount → ¬ usesArr (w.routers r) a →
      (routerUse w r ct m).arrays a = w.arrays a) ∧
    (routerUse w r ct m).routerCount = w.routerCount ∧
    (routerUse w r ct m).published = w.published ∧
    (routerUse w r ct m).sessions = w.sessions ∧
    WF (routerUse w r ct m) ∧
    (∀ a, usesArr ((routerUse w r ct m).routers r) a →
      usesArr (w.routers r) a ∨ a = w.arrCount) := by
  have hswf := use_slice_wf w r ct hwf
  set s := (objFind (w.routers r) ct).getD ⟨none, 0, 0⟩ with hs
  obtain ⟨hden, hwf1, hcount, hlen, hframe, harr, hrt, hrc, hpub, hsess⟩ :=
    goAppend_spec w s m hswf
  have hru : routerUse w r ct m =
      { (goAppend w s m).2 with
          routers := upd (goAppend w s m).2.routers r
            (objSet (w.routers r) ct (goAppend w s m).1) } := rfl
  have hsarr : ∀ a, s.arr = some a → usesArr (w.routers r) a := by
    intro a ha
    cases hf : objFind (w.routers r) ct with
    | none =>
      rw [hs, hf] at ha
      simp at ha
    | some s2 =>
      refine ⟨ct, s2, objFind_mem _ _ _ hf, ?_⟩
      rw [hs, hf] at ha
      simpa using ha
  refine ⟨?_, ?_, ?_, ?_, ?_, ?_, ?_, ?_, ?_⟩
  · intro j hj
    rw [hru]
    simp only
    rw [upd_ne _ _ _ hj, hrt]
  · rw [hru]; exact hcount
  · intro a ha; rw [hru]; exact hlen a ha
  · intro a ha hnu
    rw [hru]
    refine hframe a ha ?_
    intro hc
    exact hnu (hsarr a hc)
  · rw [hru]; exact hrc
  · rw [hru]; exact hpub
  · rw [hru]; exact hsess
  · -- well-formedness
    intro j ct2 s2 hmem
    rw [hru] at hmem
    simp only at hmem
    by_cases hj : j = r
    · subst hj
      rw [upd_same] at hmem
      rcases objSet_mem _ _ _ _ _ hmem with h1 | h1
      · subst h1
        rw [hru]
        exact SliceWF_mono _ _ _ (le_refl _) (fun a _ => rfl) hwf1
      · have h2 := hwf _ ct2 s2 h1
        rw [hru]
        exact SliceWF_mono w _ _ hcount hlen h2
    · rw [upd_ne _ _ _ hj, hrt] at hmem
      have h2 := hwf j ct2 s2 hmem
      rw [hru]
      exact SliceWF_mono w _ _ hcount hlen h2
  · intro a hu
    rw [hru] at hu
    simp only at hu
    rw [upd_same] at hu
    obtain ⟨ct2, s2, hmem, ha2⟩ := hu
    rcases objSet_mem _ _ _ _ _ hmem with h1 | h1
    · subst h1
      rcases harr a ha2 with h2 | h2
      · exact Or.inl (hsarr a h2)
      · exact Or.inr h2
    · exact Or.inl ⟨ct2, s2, h1, ha2⟩

/-- `Router.Use` appends the middleware — exactly as configured, with no
default-mask substitution — to the stage's chain. -/
theorem routerUse_chainAt (w : GoWorld) (r : Nat) (ct : ChainType)
    (m : Middleware) (hwf : WF w) :
    chainAt (routerUse w r ct m) r ct = chainAt w r ct ++ [m] := by
  have hswf := use_slice_wf w r ct hwf
  set s := (objFind (w.routers r) ct).getD ⟨none, 0, 0⟩ with hs
  obtain ⟨hden, hwf1, hcount, hlen, hframe, harr, hrt, hrc, hpub, hsess⟩ :=
    goAppend_spec w s m hswf
  have hru : routerUse w r ct m =
      { (goAppend w s m).2 with
          routers := upd (goAppend w s m).2.routers r
            (objSet (w.routers r) ct (goAppend w s m).1) } := rfl
  have hobj : (routerUse w r ct m).routers r
      = objSet (w.routers r) ct (goAppend w s m).1 := by
    rw [hru]; simp only; rw [upd_same]
  have hsd : sliceDenote (routerUse w r ct m) (goAppend w s m).1
      = sliceDenote (goAppend w s m).2 (goAppend w s m).1 := by
    refine sliceDenote_congr _ _ _ fun a _ => ?_
    rw [hru]
  unfold chainAt
  rw [hobj, objFind_objSet_same]
  show sliceDenote (routerUse w r ct m) (goAppend w s m).1
      = (match objFind (w.routers r) ct with
          | some s2 => sliceDenote w s2
          | none => []) ++ [m]
  rw [hsd, hden]
  cases hf : objFind (w.routers r) ct with
  | none =>
    have hnil : s = ⟨none, 0, 0⟩ := by rw [hs, hf]; rfl
    rw [hnil]
    simp [sliceDenote]
  | some s2 =>
    have hseq : s = s2 := by rw [hs, hf]; rfl
    rw [hseq]

theorem SliceWF_len_le_cap (w : GoWorld) (s : Slice) (hwf : SliceWF w s) :
    s.len ≤ s.cap := by
  cases hs : s.arr with
  | none =>
    have h := hwf; unfold SliceWF at h; rw [hs] at h; omega
  | some a =>
    have h := hwf; unfold SliceWF at h; rw [hs] at h; exact h.2.1

/-- The per-entry clone loop: it leaves the router heap and every existing
array untouched, allocates only fresh arrays, produces an object denoting
the same table, and every slice it produces is well formed and entirely
fresh. -/
theorem cloneEntries_spec (obj : RouterObj) : ∀ (w : GoWorld),
    (∀ ct s, (ct, s) ∈ obj → SliceWF w s) →
    (cloneEntries w obj).2.routers = w.routers ∧
    (cloneEntries w obj).2.routerCount = w.routerCount ∧
    (cloneEntries w obj).2.published = w.published ∧
    (cloneEntries w obj).2.sessions = w.sessions ∧
    w.arrCount ≤ (cloneEntries w obj).2.arrCount ∧
    (∀ a, a < w.arrCount → (cloneEntries w obj).2.arrays a = w.arrays a) ∧
    denoteObj (cloneEntries w obj).2 (cloneEntries w obj).1 = denoteObj w obj ∧
    (∀ ct s, (ct, s) ∈ (cloneEntries w obj).1 →
      SliceWF (cloneEntries w obj).2 s ∧ ∀ a, s.arr = some a → w.arrCount ≤ a) := by
  induction obj with
  | nil =>
    intro w _
    refine ⟨rfl, rfl, rfl, rfl, le_refl _, fun a _ => rfl, rfl, ?_⟩
    intro ct s h
    simp [cloneEntries] at h
  | cons e rest ih =>
    intro w hwfobj
    obtain ⟨ct, s⟩ := e
    have hswf : SliceWF w s := hwfobj ct s (List.mem_cons_self _ _)
    have hdlen : (sliceDenote w s).length = s.len := sliceDenote_length w s hswf
    have hcapx : s.len ≤ s.cap := SliceWF_len_le_cap w s hswf
    set w1 : GoWorld :=
      { w with
          arrays := upd w.arrays w.arrCount
            (sliceDenote w s ++ List.replicate (s.cap - s.len) mwZero),
          arrCount := w.arrCount + 1 } with hw1
    have hC : cloneEntries w ((ct, s) :: rest)
        = ((ct, ⟨some w.arrCount, s.len, s.cap⟩) :: (cloneEntries w1 rest).1,
           (cloneEntries w1 rest).2) := rfl
    have hw1r : w1.routers = w.routers := rfl
    have hw1c : w1.arrCount = w.arrCount + 1 := rfl
    have hw1frame : ∀ a, a < w.arrCount → w1.arrays a = w.arrays a := by
      intro a ha
      show upd w.arrays w.arrCount _ a = w.arrays a
      exact upd_ne _ _ _ (by omega)
    have hw1len : ∀ a, a < w.arrCount → (w1.arrays a).length = (w.arrays a).length := by
      intro a ha; rw [hw1frame a ha]
    have hwfobj1 : ∀ ct2 s2, (ct2, s2) ∈ rest → SliceWF w1 s2 := by
      intro ct2 s2 h
      exact SliceWF_mono w w1 s2 (by omega) hw1len
        (hwfobj ct2 s2 (List.mem_cons_of_mem _ h))
    obtain ⟨ih1, ih2, ih3, ih4, ih5, ih6, ih7, ih8⟩ := ih w1 hwfobj1
    have hfreshval : (cloneEntries w1 rest).2.arrays w.arrCount
        = sliceDenote w s ++ List.replicate (s.cap - s.len) mwZero := by
      rw [ih6 w.arrCount (by omega)]
      show upd w.arrays w.arrCount _ w.arrCount = _
      exact upd_same _ _ _
    have hnewdenote : sliceDenote (cloneEntries w1 rest).2
        ⟨some w.arrCount, s.len, s.cap⟩ = sliceDenote w s := by
      show ((cloneEntries w1 rest).2.arrays w.arrCount).take s.len = _
      rw [hfreshval]
      exact List.take_left' hdlen
    refine ⟨?_, ?_, ?_, ?_, ?_, ?_, ?_, ?_⟩
    · rw [hC]; rw [ih1]
    · rw [hC]; rw [ih2]
    · rw [hC]; rw [ih3]
    · rw [hC]; rw [ih4]
    · show w.arrCount ≤ (cloneEntries w1 rest).2.arrCount
      omega
    · intro a ha
      show (cloneEntries w1 rest).2.arrays a = w.arrays a
      rw [ih6 a (by omega), hw1frame a ha]
    · rw [hC]
      show (ct, sliceDenote (cloneEntries w1 rest).2 ⟨some w.arrCount, s.len, s.cap⟩)
          :: denoteObj (cloneEntries w1 rest).2 (cloneEntries w1 rest).1
        = (ct, sliceDenote w s) :: denoteObj w rest
      rw [hnewdenote, ih7]
      have : denoteObj w1 rest = denoteObj w rest := by
        refine denoteObj_congr w w1 rest fun a ha => ?_
        obtain ⟨ct2, s2, hm, ha2⟩ := ha
        have hs2 := hwfobj ct2 s2 (List.mem_cons_of_mem _ hm)
        unfold SliceWF at hs2
        rw [ha2] at hs2
        exact hw1frame a hs2.1
      rw [this]
    · intro ct2 s2 hmem
      rw [hC] at hmem
      rcases List.mem_cons.mp hmem with h1 | h1
      · have hs2 : s2 = ⟨some w.arrCount, s.len, s.cap⟩ := congrArg Prod.snd h1
        subst hs2
        constructor
        · show SliceWF (cloneEntries w1 rest).2 ⟨some w.arrCount, s.len, s.cap⟩
          unfold SliceWF
          simp only
          refine ⟨by omega, hcapx, ?_⟩
          rw [hfreshval]
          simp [List.length_replicate, hdlen]
          omega
        · intro a ha
          simp at ha
          omega
      · obtain ⟨hwf2, hfresh2⟩ := ih8 ct2 s2 h1
        refine ⟨hwf2, ?_⟩
        intro a ha
        have := hfresh2 a ha
        omega

/-- `Brisa.UpdateRouter` publishes a fresh deep clone: the router count
grows by one and the clone is published; sessions are untouched; every
existing router object and every existing array is untouched, so every
existing router's table contents are unchanged; the clone denotes exactly
the argument router's table; well-formedness is preserved; and the clone
reaches only fresh arrays. -/
theorem updateRouterW_spec (w : GoWorld) (r : Nat) (hwf : WF w) :
    (updateRouterW w r).routerCount = w.routerCount + 1 ∧
    (updateRouterW w r).published = some w.routerCount ∧
    (updateRouterW w r).sessions = w.sessions ∧
    w.arrCount ≤ (updateRouterW w r).arrCount ∧
    (∀ j, j ≠ w.routerCount → (updateRouterW w r).routers j = w.routers j) ∧
    (∀ a, a < w.arrCount → (updateRouterW w r).arrays a = w.arrays a) ∧
    (∀ j, j ≠ w.routerCount → denoteRouter (updateRouterW w r) j = denoteRouter w j) ∧
    denoteRouter (updateRouterW w r) w.routerCount = denoteRouter w r ∧
    WF (updateRouterW w r) ∧
    (∀ a, usesArr ((updateRouterW w r).routers w.routerCount) a →
      w.arrCount ≤ a) := by
  have hobj : ∀ ct s, (ct, s) ∈ w.routers r → SliceWF w s :=
    fun ct s h => hwf r ct s h
  obtain ⟨c1, c2, c3, c4, c5, c6, c7, c8⟩ := cloneEntries_spec (w.routers r) w hobj
  have hrj : ∀ j, j ≠ w.routerCount → (updateRouterW w r).routers j = w.routers j := by
    intro j hj
    show upd (cloneEntries w (w.routers r)).2.routers
      (cloneEntries w (w.routers r)).2.routerCount (cloneEntries w (w.routers r)).1 j
      = w.routers j
    rw [upd_ne _ _ _ (by rw [c2]; exact hj), c1]
  have hrnew : (updateRouterW w r).routers w.routerCount
      = (cloneEntries w (w.routers r)).1 := by
    show upd (cloneEntries w (w.routers r)).2.routers
      (cloneEntries w (w.routers r)).2.routerCount (cloneEntries w (w.routers r)).1
      w.routerCount = _
    rw [← c2, upd_same]
  have harr : ∀ a, a < w.arrCount → (updateRouterW w r).arrays a = w.arrays a := by
    intro a ha
    show (cloneEntries w (w.routers r)).2.arrays a = w.arrays a
    exact c6 a ha
  have hcount : w.arrCount ≤ (updateRouterW w r).arrCount := c5
  refine ⟨?_, ?_, ?_, hcount, hrj, harr, ?_, ?_, ?_, ?_⟩
  · show (cloneEntries w (w.routers r)).2.routerCount + 1 = w.routerCount + 1
    rw [c2]
  · show some (cloneEntries w (w.routers r)).2.routerCount = some w.routerCount
    rw [c2]
  · exact c4
  · intro j hj
    unfold denoteRouter
    rw [hrj j hj]
    refine denoteObj_congr w (updateRouterW w r) (w.routers j) fun a ha => ?_
    obtain ⟨ct2, s2, hm, ha2⟩ := ha
    have hs2 := hwf j ct2 s2 hm
    unfold SliceWF at hs2; rw [ha2] at hs2
    exact harr a hs2.1
  · unfold denoteRouter
    rw [hrnew]
    have hstep : denoteObj (updateRouterW w r) (cloneEntries w (w.routers r)).1
        = denoteObj (cloneEntries w (w.routers r)).2 (cloneEntries w (w.routers r)).1 := by
      exact denoteObj_congr _ _ _ fun a _ => rfl
    rw [hstep, c7]
  · intro j ct2 s2 hmem
    by_cases hj : j = w.routerCount
    · subst hj
      rw [hrnew] at hmem
      have h2 := (c8 ct2 s2 hmem).1
      exact SliceWF_mono _ _ _ (le_refl _) (fun a _ => rfl) h2
    · rw [hrj j hj] at hmem
      have h2 := hwf j ct2 s2 hmem
      refine SliceWF_mono w _ s2 hcount ?_ h2
      intro a ha
      rw [harr a ha]
  · intro a hu
    rw [hrnew] at hu
    obtain ⟨ct2, s2, hm, ha2⟩ := hu
    exact (c8 ct2 s2 hm).2 a ha2

/-- The isolation invariant: the world is well formed, the published clone
`p` exists, and no other router reference reaches any backing array the
clone reaches. -/
def Inv (w : GoWorld) (p : Nat) : Prop :=
  WF w ∧ p < w.routerCount ∧
  ∀ j a, j ≠ p → usesArr (w.routers j) a → ¬ usesArr (w.routers p) a

theorem usesArr_lt (w : GoWorld) (hwf : WF w) (j a : Nat)
    (h : usesArr (w.routers j) a) : a < w.arrCount := by
  obtain ⟨ct, s, hm, ha⟩ := h
  have h2 := hwf j ct s hm
  unfold SliceWF at h2; rw [ha] at h2
  exact h2.1

theorem inv_use (w : GoWorld) (p r : Nat) (ct : ChainType) (m : Middleware)
    (hinv : Inv w p) (hr : r ≠ p) :
    Inv (routerUse w r ct m) p ∧
    denoteRouter (routerUse w r ct m) p = denoteRouter w p := by
  obtain ⟨hwf, hp, hdisj⟩ := hinv
  obtain ⟨u1, u2, u3, u4, u5, u6, u7, u8, u9⟩ := routerUse_spec w r ct m hwf
  have hrp : (routerUse w r ct m).routers p = w.routers p := u1 p (Ne.symm hr)
  have hden : denoteRouter (routerUse w r ct m) p = denoteRouter w p := by
    unfold denoteRouter
    rw [hrp]
    refine denoteObj_congr w _ (w.routers p) fun a ha => ?_
    exact u4 a (usesArr_lt w hwf p a ha) (fun hc => hdisj r a hr hc ha)
  refine ⟨⟨u8, by rw [u5]; exact hp, ?_⟩, hden⟩
  intro j a hj huse
  rw [hrp]
  by_cases hjr : j = r
  · subst hjr
    rcases u9 a huse with h1 | h1
    · exact hdisj j a hj h1
    · intro hc
      have := usesArr_lt w hwf p a hc
      omega
  · rw [u1 j hjr] at huse
    exact hdisj j a hj huse

theorem inv_update (w : GoWorld) (p r : Nat) (hinv : Inv w p) :
    Inv (updateRouterW w r) p ∧
    denoteRouter (updateRouterW w r) p = denoteRouter w p ∧
    (updateRouterW w r).sessions = w.sessions := by
  obtain ⟨hwf, hp, hdisj⟩ := hinv
  obtain ⟨s1, s2, s3, s4, s5, s6, s7, s8, s9, s10⟩ := updateRouterW_spec w r hwf
  have hpne : p ≠ w.routerCount := by omega
  have hrp : (updateRouterW w r).routers p = w.routers p := s5 p hpne
  refine ⟨⟨s9, by rw [s1]; omega, ?_⟩, s7 p hpne, s3⟩
  intro j a hj huse
  rw [hrp]
  by_cases hjn : j = w.routerCount
  · subst hjn
    have hge := s10 a huse
    intro hc
    have := usesArr_lt w hwf p a hc
    omega
  · rw [s5 j hjn] at huse
    exact hdisj j a hj huse

theorem inv_congr (w w' : GoWorld) (p : Nat)
    (hr : w'.routers = w.routers) (ha : w'.arrays = w.arrays)
    (hac : w'.arrCount = w.arrCount) (hrc : w'.routerCount = w.routerCount)
    (hinv : Inv w p) :
    Inv w' p ∧ denoteRouter w' p = denoteRouter w p := by
  obtain ⟨hwf, hp, hdisj⟩ := hinv
  have hwf' : WF w' := by
    intro j ct s hm
    rw [hr] at hm
    refine SliceWF_mono w w' s (by omega) ?_ (hwf j ct s hm)
    intro a _
    rw [ha]
  have hden : denoteRouter w' p = denoteRouter w p := by
    unfold denoteRouter
    rw [hr]
    exact denoteObj_congr w w' _ fun a _ => by rw [ha]
  refine ⟨⟨hwf', by omega, ?_⟩, hden⟩
  intro j a hj huse
  rw [hr] at huse ⊢
  exact hdisj j a hj huse

theorem newSessionW_fields (w : GoWorld) :
    (newSessionW w).routers = w.routers ∧ (newSessionW w).arrays = w.arrays ∧
    (newSessionW w).arrCount = w.arrCount ∧
    (newSessionW w).routerCount = w.routerCount := by
  cases hp : w.published <;> simp [newSessionW, hp]

theorem newSessionW_sessions (w : GoWorld) :
    (newSessionW w).sessions.take w.sessions.length = w.sessions := by
  cases hp : w.published with
  | none => simp [newSessionW, hp]
  | some q =>
    simp only [newSessionW, hp]
    exact List.take_left _ _

theorem take_trans {α : Type} {l1 l2 l3 : List α}
    (h12 : l2.take l1.length = l1) (h23 : l3.take l2.length = l2) :
    l3.take l1.length = l1 := by
  have hle : l1.length ≤ l2.length := by
    conv_lhs => rw [← h12]
    simp [List.length_take]
  have h := congrArg (List.take l1.length) h23
  rw [List.take_take, Nat.min_eq_left hle] at h
  exact h.trans h12

/-- Every sequence of operations that never mutates the clone `p` through
`Use` preserves the invariant, leaves the clone's table contents unchanged,
and only ever appends to the session list. -/
theorem applyOps_inv (p : Nat) (ops : List COp) : ∀ (w : GoWorld), Inv w p →
    (∀ ct m, COp.use p ct m ∉ ops) →
    Inv (applyOps w ops) p ∧
    denoteRouter (applyOps w ops) p = denoteRouter w p ∧
    (applyOps w ops).sessions.take w.sessions.length = w.sessions := by
  induction ops with
  | nil =>
    intro w hinv _
    exact ⟨hinv, rfl, by
      show w.sessions.take w.sessions.length = w.sessions
      simp⟩
  | cons op rest ih =>
    intro w hinv hops
    have hopsrest : ∀ ct m, COp.use p ct m ∉ rest := by
      intro ct m hc
      exact hops ct m (List.mem_cons_of_mem _ hc)
    have hstep : Inv (applyOp w op) p ∧
        denoteRouter (applyOp w op) p = denoteRouter w p ∧
        (applyOp w op).sessions.take w.sessions.length = w.sessions := by
      cases op with
      | use r ct m =>
        have hrp : r ≠ p := by
          intro hc
          subst hc
          exact hops ct m (List.mem_cons_self _ _)
        obtain ⟨h1, h2⟩ := inv_use w p r ct m hinv hrp
        refine ⟨h1, h2, ?_⟩
        have hsess : (routerUse w r ct m).sessions = w.sessions :=
          (routerUse_spec w r ct m hinv.1).2.2.2.2.2.2.1
        show (routerUse w r ct m).sessions.take w.sessions.length = w.sessions
        rw [hsess]
        simp
      | updateRouter r =>
        obtain ⟨h1, h2, h3⟩ := inv_update w p r hinv
        refine ⟨h1, h2, ?_⟩
        show (updateRouterW w r).sessions.take w.sessions.length = w.sessions
        rw [h3]
        simp
      | newSession =>
        obtain ⟨f1, f2, f3, f4⟩ := newSessionW_fields w
        obtain ⟨h1, h2⟩ := inv_congr w (newSessionW w) p f1 f2 f3 f4 hinv
        exact ⟨h1, h2, newSessionW_sessions w⟩
    obtain ⟨hinv1, hden1, hsess1⟩ := hstep
    obtain ⟨hinv2, hden2, hsess2⟩ := ih (applyOp w op) hinv1 hopsrest
    refine ⟨hinv2, ?_, ?_⟩
    · show denoteRouter (applyOps (applyOp w op) rest) p = denoteRouter w p
      rw [hden2, hden1]
    · show (applyOps (applyOp w op) rest).sessions.take w.sessions.length = w.sessions
      exact take_trans hsess1 hsess2

theorem inv_established (w : GoWorld) (r0 : Nat) (hwf : WF w) :
    Inv (updateRouterW w r0) w.routerCount := by
  obtain ⟨s1, s2, s3, s4, s5, s6, s7, s8, s9, s10⟩ := updateRouterW_spec w r0 hwf
  refine ⟨s9, by omega, ?_⟩
  intro j a hj huse
  rw [s5 j hj] at huse
  have hlt := usesArr_lt w hwf j a huse
  intro hc
  have hge := s10 a hc
  omega

/-- Claim C2: publishing stores a deep clone, never the caller's live
object.  After `UpdateRouter`, (1) the published table's contents survive
any sequence of operations that does not address the (private) clone
reference — in particular any `Use` mutations of the caller's original
router, further hot reloads, and new sessions — and they equal the
caller's table as it stood at publish time; (2) an `UpdateRouter` call
leaves every pre-existing router reference's contents unchanged, so a
session holding the reference it loaded at `NewSession` never sees its
chains change; (3) session snapshots are append-only — no operation
rewrites the reference a running session already holds. -/
theorem claim2_publish_isolation (w : GoWorld) (r0 : Nat) (hwf : WF w)
    (_hr0 : r0 < w.routerCount) (ops : List COp)
    (hops : ∀ ct m, COp.use w.routerCount ct m ∉ ops) :
    denoteRouter (applyOps (updateRouterW w r0) ops) w.routerCount
      = denoteRouter w r0 ∧
    (∀ j, j < w.routerCount →
      denoteRouter (updateRouterW w r0) j = denoteRouter w j) ∧
    (applyOps (updateRouterW w r0) ops).sessions.take w.sessions.length
      = w.sessions := by
  obtain ⟨s1, s2, s3, s4, s5, s6, s7, s8, s9, s10⟩ := updateRouterW_spec w r0 hwf
  have hinv := inv_established w r0 hwf
  obtain ⟨ha1, ha2, ha3⟩ :=
    applyOps_inv w.routerCount ops (updateRouterW w r0) hinv hops
  refine ⟨?_, ?_, ?_⟩
  · rw [ha2, s8]
  · intro j hj
    exact s7 j (by omega)
  · rw [s3] at ha3
    exact ha3

/-- A world with one freshly allocated empty router (reference 0). -/
def w7 : GoWorld :=
  { arrays := fun _ => [], arrCount := 0, routers := fun _ => [],
    routerCount := 1, published := none, sessions := [] }

/-- A middleware whose configured skip mask is the zero value. -/
def zeroMaskUnit : Middleware := ⟨fun c => .ok c Pass, 0⟩

/-- The world after `router.Use(ChainConn, zeroMaskUnit)` on router 0. -/
def w7used : GoWorld := routerUse w7 0 ChainType.conn zeroMaskUnit

/-- The world after `b.UpdateRouter(router)`: reference 1 is the published
clone. -/
def w7pub : GoWorld := updateRouterW w7used 0

theorem w7_wf : WF w7 := by
  intro j ct s h
  have hempty : w7.routers j = [] := rfl
  rw [hempty] at h
  simp at h

theorem w7used_wf : WF w7used := by
  intro j ct s h
  by_cases hj : j = 0
  · subst hj
    have hr : w7used.routers 0 = [(ChainType.conn, ⟨some 0, 1, 1⟩)] := rfl
    rw [hr] at h
    simp at h
    obtain ⟨h1, h2⟩ := h
    subst h2
    unfold SliceWF
    simp only
    exact ⟨by decide, by decide, rfl⟩
  · have hr : w7used.routers j = [] := by
      show upd (fun _ => ([] : RouterObj)) 0
        [(ChainType.conn, ⟨some 0, 1, 1⟩)] j = []
      rw [upd_ne _ _ _ hj]
    rw [hr] at h
    simp at h

/-- Witness for C2 on a concrete world: publish router 0's table (holding
the conn chain), then mutate router 0 again; the published clone
(reference 1) still denotes the table as published. -/
theorem claim2_publish_isolation_witness :
    denoteRouter (applyOps (updateRouterW w7used 0)
        [COp.use 0 ChainType.data passUnit]) w7used.routerCount
      = denoteRouter w7used 0 :=
  (claim2_publish_isolation w7used 0 w7used_wf (by decide)
    [COp.use 0 ChainType.data passUnit]
    (by
      intro ct m hc
      simp at hc
      exact absurd hc.1 (by decide))).1

/-- Lookup in the name-keyed chain map of `MiddlewareChains`. -/
def findStr : List (String × MiddlewareChain) → String → Option MiddlewareChain
  | [], _ => none
  | (k, c) :: rest, name => if k = name then some c else findStr rest name

/-- Go `c.chains[chainName] = append(c.chains[chainName], m)`: append to
the named chain, creating it if missing. -/
def assocAppend : List (String × MiddlewareChain) → String → Middleware →
    List (String × MiddlewareChain)
  | [], k, m => [(k, [m])]
  | (k0, c) :: rest, k, m =>
    if k0 = k then (k0, c ++ [m]) :: rest else (k0, c) :: assocAppend rest k m

/-- `MiddlewareChains` (`middleware.go` lines 184-211). -/
structure MiddlewareChains where
  chains : List (String × MiddlewareChain)

/-- `MiddlewareChains.Register` (`middleware.go` lines 197-202): substitute
the default skip mask when the configured one is the zero value, then
append to the named chain. -/
def MiddlewareChains.Register (c : MiddlewareChains) (chainName : String)
    (m : Middleware) : MiddlewareChains :=
  let m1 := if m.IgnoreFlags = 0 then { m with IgnoreFlags := DefaultIgnoreFlags }
    else m
  ⟨assocAppend c.chains chainName m1⟩

/-- `MiddlewareChains.Get` (`middleware.go` lines 208-211). -/
def MiddlewareChains.Get (c : MiddlewareChains) (chainName : String) :
    Option MiddlewareChain :=
  findStr c.chains chainName

theorem assocAppend_find (l : List (String × MiddlewareChain)) (k : String)
    (m : Middleware) :
    findStr (assocAppend l k m) k = some ((findStr l k).getD [] ++ [m]) := by
  induction l with
  | nil => simp [assocAppend, findStr]
  | cons e rest ih =>
    obtain ⟨k0, c⟩ := e
    by_cases hk : k0 = k
    · subst hk
      simp [assocAppend, findStr]
    · simp [assocAppend, findStr, hk, ih]

/-- Claim C7 is FALSE on the code as stated: the default-mask substitution
does NOT apply at every registration path into a published routing table.
`Router.Use` performs no substitution, so a middleware configured with the
zero mask reaches the published table (the deep clone stored by
`UpdateRouter`) with mask 0, not `DefaultIgnoreFlags`. -/
theorem claim7_counterexample :
    zeroMaskUnit.IgnoreFlags = 0 ∧
    w7pub.published = some 1 ∧
    (denoteRouter w7pub 1).map (fun e => (e.1, e.2.map Middleware.IgnoreFlags))
      = [(ChainType.conn, [0])] ∧
    (0 : Action) ≠ DefaultIgnoreFlags := by
  exact ⟨rfl, rfl, rfl, by decide⟩

/-- Claim C7 amended: the zero-mask substitution happens in
`MiddlewareChains.Register` — a unit registered there with the zero mask is
stored with `DefaultIgnoreFlags`, any non-zero mask is kept — while
`Router.Use`, the registration path into a published routing table, stores
the middleware exactly as configured (including a zero mask). -/
theorem claim7_amended_default_mask :
    (∀ (c : MiddlewareChains) (chainName : String) (m : Middleware),
      (c.Register chainName m).Get chainName =
        some ((c.Get chainName).getD [] ++
          [if m.IgnoreFlags = 0 then { m with IgnoreFlags := DefaultIgnoreFlags }
            else m])) ∧
    (∀ (w : GoWorld) (r : Nat) (ct : ChainType) (m : Middleware), WF w →
      chainAt (routerUse w r ct m) r ct = chainAt w r ct ++ [m]) := by
  constructor
  · intro c chainName m
    show findStr (assocAppend c.chains chainName _) chainName = _
    exact assocAppend_find c.chains chainName _
  · intro w r ct m hwf
    exact routerUse_chainAt w r ct m hwf

/-- Witness for the amended C7: `Use` of the zero-mask unit on the concrete
world appends it verbatim. -/
theorem claim7_amended_default_mask_witness :
    chainAt (routerUse w7 0 ChainType.conn zeroMaskUnit) 0 ChainType.conn
      = chainAt w7 0 ChainType.conn ++ [zeroMaskUnit] :=
  claim7_amended_default_mask.2 w7 0 ChainType.conn zeroMaskUnit w7_wf

end Brisa
